import Mathlib

/-!
Shallow embedding of the WebRTC signaling server
(`src/unnamed/part_000`, the final and most complete iteration of the
server in this repository; `src/index.js` is a superseded earlier
iteration of the same code).

The server keeps two in-memory maps, `peers` (peer id → peer record) and
`lobbies` (lobby code → lobby record), and processes three kinds of
external events: a new websocket connection, an inbound text message on
an existing connection, and a connection close.  JavaScript `Map`s are
modelled as insertion-ordered lists; mutation of an aliased peer object
is modelled by updating the global peer list, which is faithful because
every lobby membership entry aliases the registry entry for the same id.

JavaScript exceptions (`JSON.parse` failure, the `in` operator applied
to `null`, property access on `undefined`) are modelled by the `thrown`
outcome; an uncaught exception in a handler kills the Node process, so
no successor state exists for that event.  A non-terminating loop is
modelled by the `diverge` outcome (the name-collision loop is given fuel
strictly larger than anything the loop can consume on the inputs of
interest).
-/

namespace Signaling

/-- JSON values, the result type of `JSON.parse`. Numbers are modelled as
integers: every numeric field the server inspects (`message.type`) is
compared against the integer message-kind constants. -/
inductive JValue where
  | null
  | bool (b : Bool)
  | num (n : Int)
  | str (s : String)
  | arr (elems : List JValue)
  | obj (fields : List (String × JValue))

/-- Outcome of a piece of JavaScript code: normal completion, an
exception propagating out of the handler (which, uncaught, kills the
process), or non-termination. -/
inductive JsResult (α : Type) where
  | ok (val : α)
  | thrown
  | diverge

/-- String coercion of a JSON value, as performed by JavaScript template
literals (`String(v)`).  Array elements that are `null` stringify to the
empty string inside `Array.prototype.join`. -/
def jsToString : JValue → String
  | .null => "null"
  | .bool b => if b then "true" else "false"
  | .num n => n.repr
  | .str s => s
  | .obj _ => "[object Object]"
  | .arr elems => String.intercalate "," (elems.map (fun e =>
      match e with
      | .null => ""
      | .bool b => if b then "true" else "false"
      | .num n => n.repr
      | .str s => s
      | .obj _ => "[object Object]"
      | .arr _ => "[nested array]"))

/-- `ToPrimitive` on a JSON value: objects and arrays coerce to their
string form, primitives are unchanged. -/
def jsPrim : JValue → JValue
  | .arr elems => .str (jsToString (.arr elems))
  | .obj _ => .str "[object Object]"
  | v => v

/-- `ToNumber` on a primitive JSON value (integer fragment: every number
the modelled program compares is an integer). -/
def toNum? : JValue → Option Int
  | .null => some 0
  | .bool b => some (if b then 1 else 0)
  | .num n => some n
  | .str s => (if s.trim = "" then some 0 else s.trim.toInt?)
  | _ => none

/-- JavaScript loose equality `==` on parsed JSON values.  Two distinct
`obj`/`arr` values in this model always denote distinct heap references
(each comes from a separate `JSON.parse`), so object–object comparison
is `false`. -/
def jsEq (a b : JValue) : Bool :=
  match a, b with
  | .null, .null => true
  | .null, _ => false
  | _, .null => false
  | .obj _, .obj _ => false
  | .obj _, .arr _ => false
  | .arr _, .obj _ => false
  | .arr _, .arr _ => false
  | x, y =>
    match jsPrim x, jsPrim y with
    | .str s, .str t => s == t
    | x2, y2 =>
      match toNum? x2, toNum? y2 with
      | some n, some m => n == m
      | _, _ => false

/-- Field presence on an object field list (`'k' in obj`). -/
def jHas (fields : List (String × JValue)) (k : String) : Bool :=
  fields.any (fun kv => kv.fst == k)

/-- Field lookup on an object field list (`obj.k`); `JSON.parse` output
has no duplicate keys, so first-match lookup is exact. -/
def jLook (fields : List (String × JValue)) (k : String) : JValue :=
  ((fields.find? (fun kv => kv.fst == k)).map (fun kv => kv.snd)).getD .null

/-- Field lookup on an arbitrary JSON value, defaulting to `null`; used
only where validation has already established the field's presence. -/
def jGetD (v : JValue) (k : String) : JValue :=
  match v with
  | .obj fields => jLook fields k
  | _ => .null

/-- Projection to a string, used only where validation has already
established that the value is a string. -/
def jStrD : JValue → String
  | .str s => s
  | _ => ""

/-- Projection to a number, used only where validation has already
established that the value is a number. -/
def jNumD : JValue → Int
  | .num n => n
  | _ => 0

/-! ## Constants (`MESSAGE_TYPE`, `CLOSE_CODES`, lobby-code alphabet) -/

def SET_ID : Int := 0
def PEER_CONNECT : Int := 1
def PEER_DISCONNECT : Int := 2
def OFFER : Int := 3
def ANSWER : Int := 4
def CANDIDATE : Int := 5

def GOING_AWAY : Nat := 1001
def INVALID_PAYLOAD : Nat := 1007
def TRY_AGAIN_LATER : Nat := 1013
def UNAUTHORIZED : Nat := 3000
def FORBIDDEN : Nat := 3003

def LOBBY_ID_LENGTH : Nat := 6
def LOBBY_ID_CHARS : String :=
  "ABCDEFGHIJKLMNOPQRSTUVWXYZabcdefghijklmnopqrstuvwxyz0123456789"

/-- `validateMessage(message)` from the source, on an already-parsed
JSON value.  Returns `thrown` exactly where the JavaScript code throws:
`'type' in message` when the payload decoded to `null`, and
`'name' in message.data` when a PEER_CONNECT `data` is `null`. -/
def validateMessage (message : JValue) : JsResult Bool :=
  match message with
  | .num _ => .ok false
  | .str _ => .ok false
  | .bool _ => .ok false
  | .null => .thrown
  | .arr _ => .ok false
  | .obj fields =>
    if !(jHas fields "type") then .ok false
    else
      match jLook fields "type" with
      | .num t =>
        if !([SET_ID, PEER_CONNECT, PEER_DISCONNECT, OFFER, ANSWER,
              CANDIDATE].contains t) then .ok false
        else if !(jHas fields "peer_index") then .ok false
        else
          match jLook fields "peer_index" with
          | .str _ =>
            if !(jHas fields "data") then .ok false
            else if t == PEER_CONNECT then
              match jLook fields "data" with
              | .num _ => .ok false
              | .str _ => .ok false
              | .bool _ => .ok false
              | .null => .thrown
              | .arr _ => .ok false
              | .obj dfields => .ok (jHas dfields "name")
            else .ok true
          | _ => .ok false
      | _ => .ok false

/-! ## Server state (`peers` and `lobbies` maps) -/

/-- One peer record, as created by `connectPeer`.  The websocket handle
is identified with the peer id for output addressing; `name` is a JSON
value because the source assigns `message.data.name` to it verbatim. -/
structure Peer where
  id : String
  name : JValue
  isHost : Bool
  lobbyId : String

/-- One lobby record.  `members` is the insertion-ordered key list of
the lobby's `peers` map (values alias the registry and are resolved
through it).  `creator` is specification-ghost state recording the id of
the peer whose connection triggered `createLobby`; the source has no
such field, and it influences no behaviour. -/
structure Lobby where
  id : String
  members : List String
  creator : String

/-- The two process-global maps, as insertion-ordered lists. -/
structure ServerState where
  peers : List Peer
  lobbies : List Lobby

/-- The configurable values from `config.js` that the core logic reads
(`Config.MAX_PEERS`, `Config.MAX_LOBBY_SIZE`).  The shipped
configuration is `maxPeers = 4096`, `maxLobbySize = 10`. -/
structure Config where
  maxPeers : Nat
  maxLobbySize : Nat

def shippedConfig : Config := { maxPeers := 4096, maxLobbySize := 10 }

/-- `peers.get(id)`. -/
def findPeer (st : ServerState) (id : String) : Option Peer :=
  st.peers.find? (fun p => p.id == id)

/-- `lobbies.get(code)`. -/
def findLobby (st : ServerState) (code : String) : Option Lobby :=
  st.lobbies.find? (fun l => l.id == code)

/-- In-place mutation of the peer object stored under `id` (JavaScript
aliasing: every holder of the reference observes the update). -/
def updatePeer (st : ServerState) (id : String) (f : Peer → Peer) : ServerState :=
  { st with peers := st.peers.map (fun p => if p.id == id then f p else p) }

/-- In-place mutation of the lobby object stored under `code`. -/
def updateLobby (st : ServerState) (code : String) (f : Lobby → Lobby) : ServerState :=
  { st with lobbies := st.lobbies.map (fun l => if l.id == code then f l else l) }

/-- `peers.delete(id)`. -/
def removePeer (st : ServerState) (id : String) : ServerState :=
  { st with peers := st.peers.filter (fun p => p.id != id) }

/-- `lobbies.delete(code)`. -/
def removeLobby (st : ServerState) (code : String) : ServerState :=
  { st with lobbies := st.lobbies.filter (fun l => l.id != code) }

/-! ## Outputs -/

/-- Observable transport effects.  `send target ty peerIndex data` is
`sendPeerMessage`: the packet `{type: ty, peer_index: peerIndex, data}`
delivered to the connection of peer `target`; `data = none` models an
omitted `data` argument (`JSON.stringify` drops `undefined` fields).
`close who code reason` is `ws.close(code, reason)` on `who`'s
connection. -/
inductive Output where
  | send (target : String) (ty : Int) (peerIndex : String) (data : Option JValue)
  | close (who : String) (code : Nat) (reason : String)

/-! ## Registry operations (`connectPeer`, `createLobby`, `leaveLobby`,
`validateLobbyId`, `joinLobby`, `setPeerId`, `disconnectPeer`) -/

/-- `connectPeer(ws)`: allocate the peer record.  The fresh
`Crypto.randomUUID()` is supplied by the event (with freshness as a side
condition where reachability is concerned). -/
def connectPeer (st : ServerState) (id : String) : ServerState :=
  { st with
    peers := st.peers ++ [{ id := id, name := .str "Player", isHost := false,
                            lobbyId := "" }] }

/-- `createLobby()`: register an empty lobby under `newCode`.  The
do-while re-roll loop guarantees the chosen code collides with no active
lobby; the event supplies the final draw, with freshness as a side
condition where reachability is concerned.  `creatorId` only feeds the
ghost `creator` field. -/
def createLobby (st : ServerState) (newCode : String) (creatorId : String) : ServerState :=
  { st with
    lobbies := st.lobbies ++ [{ id := newCode, members := [], creator := creatorId }] }

/-- `validateLobbyId(lobbyId)`. -/
def validateLobbyId (st : ServerState) (lobbyId : String) : Bool :=
  if lobbyId.length != LOBBY_ID_LENGTH then false
  else if !(lobbyId.toList.all (fun c => LOBBY_ID_CHARS.toList.contains c)) then false
  else if (findLobby st lobbyId).isNone then false
  else true

/-- `leaveLobby(peer)`: drop the peer from its lobby's membership and
delete the lobby when that leaves it empty.  (`peer.lobbyId` truthiness
is emptiness of the string.) -/
def leaveLobby (st : ServerState) (peer : Peer) : ServerState :=
  if peer.lobbyId != "" then
    match findLobby st peer.lobbyId with
    | some lobby =>
      let remaining := lobby.members.filter (fun m => m != peer.id)
      if remaining.isEmpty then removeLobby st lobby.id
      else updateLobby st lobby.id (fun l => { l with members := remaining })
    | none => st
  else st

/-- `joinLobby(id, req)`.  `reqCode` is the first path segment of the
request URL (`none` when the URL is just `/`); `newCode` is the code
`createLobby` would draw.  Returns the new state, the outputs, and the
function's return value (`none` models the bare `return;`).  Note the
source stores `peer.lobbyId = lobbyId` *before* the capacity check. -/
def joinLobby (cfg : Config) (st : ServerState) (id : String) (reqCode : Option String)
    (newCode : String) : JsResult (ServerState × List Output × Option String) :=
  let peer? := findPeer st id
  match reqCode with
  | some code =>
    if !(validateLobbyId st code) then
      match peer? with
      | none => .thrown
      | some _ => .ok (st, [Output.close id INVALID_PAYLOAD "Invalid lobby ID"], none)
    else
      match peer? with
      | none => .thrown
      | some _ =>
        let st1 := updatePeer st id (fun p => { p with lobbyId := code })
        match findLobby st1 code with
        | none => .thrown
        | some lobby =>
          if lobby.members.length >= cfg.maxLobbySize then
            .ok (st1, [Output.close id FORBIDDEN "Lobby is full"], none)
          else
            .ok (updateLobby st1 code (fun l => { l with members := l.members ++ [id] }),
                 [], some code)
  | none =>
    let st1 := createLobby st newCode id
    match peer? with
    | none => .thrown
    | some _ =>
      let st2 := updatePeer st1 id (fun p => { p with isHost := true })
      let st3 := updatePeer st2 id (fun p => { p with lobbyId := newCode })
      match findLobby st3 newCode with
      | none => .thrown
      | some lobby =>
        if lobby.members.length >= cfg.maxLobbySize then
          .ok (st3, [Output.close id FORBIDDEN "Lobby is full"], none)
        else
          .ok (updateLobby st3 newCode (fun l => { l with members := l.members ++ [id] }),
               [], some newCode)

/-- `setPeerId(id)`. -/
def setPeerId (st : ServerState) (id : String) : JsResult (List Output) :=
  match findPeer st id with
  | none => .thrown
  | some peer =>
    .ok [Output.send peer.id SET_ID id (some (.obj [("lobby_id", .str peer.lobbyId)]))]

/-- `disconnectPeer(id)`: remove the peer from lobby and registry, then
notify every remaining member of the lobby it referenced. -/
def disconnectPeer (st : ServerState) (id : String) : ServerState × List Output :=
  match findPeer st id with
  | none => (st, [])
  | some peer =>
    let st1 := leaveLobby st peer
    let st2 := removePeer st1 id
    match findLobby st2 peer.lobbyId with
    | none => (st2, [])
    | some lobby =>
      (st2, lobby.members.flatMap (fun mid =>
        match findPeer st2 mid with
        | some m => [Output.send m.id PEER_DISCONNECT id none]
        | none => []))

/-! ## Handshake handling (`setPlayerName`, `handlePeerConnection`) -/

/-- The loop guard in `setPlayerName`: does any other current lobby
member's name loosely equal the candidate?  `others` is
`lobby.peers.values()` resolved through the registry (the announcer is
in the list and excluded by the id test, exactly as in the source). -/
def nameTaken (others : List Peer) (fromId : String) (candidate : JValue) : Bool :=
  others.any (fun p => p.id != fromId && jsEq p.name candidate)

/-- The `while` loop of `setPlayerName`: starting from candidate `cand`
and counter `it`, keep replacing the candidate with
`` `${dataName} (${it})` `` while some other member's name matches.  One
unit of fuel is one evaluation of the guard; `none` means the fuel ran
out (the fuel passed by `setPlayerName` exceeds what the loop can
consume on any input where names collide only finitely often). -/
def resolveNameLoop (others : List Peer) (fromId : String) (dataName : JValue) :
    Nat → JValue → Nat → Option JValue
  | 0, _, _ => none
  | fuel + 1, cand, it =>
    if nameTaken others fromId cand then
      resolveNameLoop others fromId dataName fuel
        (.str (jsToString dataName ++ " (" ++ Nat.repr it ++ ")")) (it + 1)
    else some cand

/-- `setPlayerName(message, lobby, from)`: resolve the collision-free
name and assign it to the announcing peer's record. -/
def setPlayerName (st : ServerState) (dataName : JValue) (lobby : Lobby)
    (fromId : String) : Option ServerState :=
  let others := lobby.members.filterMap (findPeer st)
  match resolveNameLoop others fromId dataName (others.length + 2) dataName 1 with
  | some nm => some (updatePeer st fromId (fun p => { p with name := nm }))
  | none => none

/-- `handlePeerConnection(fromId, message)`: assign the resolved name,
then for every other lobby member emit the two introduction messages in
lobby-iteration order.  The `data` forwarded to each existing member is
the announcer's `message.data` object itself, which `setPlayerName`
never modifies. -/
def handlePeerConnection (st : ServerState) (fromId : String) (message : JValue) :
    JsResult (ServerState × List Output) :=
  match findPeer st fromId with
  | none => .thrown
  | some sender =>
    match findLobby st sender.lobbyId with
    | none => .thrown
    | some lobby =>
      let data := jGetD message "data"
      match setPlayerName st (jGetD data "name") lobby fromId with
      | none => .diverge
      | some st1 =>
        let outs := lobby.members.flatMap (fun destId =>
          if destId != fromId then
            match findPeer st1 destId with
            | some dest =>
              [Output.send sender.id PEER_CONNECT destId
                 (some (.obj [("name", dest.name), ("is_host", .bool dest.isHost),
                              ("preexisting", .bool true)])),
               Output.send dest.id PEER_CONNECT fromId (some data)]
            | none => []
          else [])
        .ok (st1, outs)

/-! ## Message dispatch (`handlePeerMessage`) -/

/-- `handlePeerMessage(fromId, packet)`.  `parsed` is the result of
`JSON.parse(packet)`: `none` when the packet is not valid JSON, in
which case the uncaught `SyntaxError` propagates out of the `message`
handler (`thrown`).  Non-PEER_CONNECT validated messages — including
SET_ID and PEER_DISCONNECT — take the relay branch. -/
def handlePeerMessage (st : ServerState) (fromId : String) (parsed : Option JValue) :
    JsResult (ServerState × List Output) :=
  let from? := findPeer st fromId
  match parsed with
  | none => .thrown
  | some message =>
    match validateMessage message with
    | .thrown => .thrown
    | .diverge => .diverge
    | .ok false =>
      match from? with
      | none => .thrown
      | some _ => .ok (st, [Output.close fromId INVALID_PAYLOAD "Invalid message received"])
    | .ok true =>
      if jsEq (jGetD message "type") (.num PEER_CONNECT) then
        handlePeerConnection st fromId message
      else
        match findPeer st (jStrD (jGetD message "peer_index")) with
        | none =>
          match from? with
          | none => .thrown
          | some _ =>
            .ok (st, [Output.close fromId UNAUTHORIZED
                        "Destination peer is not in the same lobby"])
        | some dest =>
          match from? with
          | none => .thrown
          | some sender =>
            if dest.lobbyId != sender.lobbyId then
              .ok (st, [Output.close fromId UNAUTHORIZED
                          "Destination peer is not in the same lobby"])
            else
              .ok (st, [Output.send dest.id (jNumD (jGetD message "type")) fromId
                          (some (jGetD message "data"))])

/-! ## Connection handling (the `wss.on('connection')` callback) -/

/-- The connection callback: global-ceiling check, `connectPeer`,
`joinLobby`, and on successful join `setPeerId`.  `id` is the UUID
`connectPeer` draws, `newCode` the lobby code `createLobby` would draw;
both are event data. -/
def onConnection (cfg : Config) (st : ServerState) (id : String)
    (reqCode : Option String) (newCode : String) : JsResult (ServerState × List Output) :=
  if st.peers.length >= cfg.maxPeers then
    .ok (st, [Output.close id TRY_AGAIN_LATER "Too many peers connected"])
  else
    let st1 := connectPeer st id
    match joinLobby cfg st1 id reqCode newCode with
    | .thrown => .thrown
    | .diverge => .diverge
    | .ok (st2, outs, none) => .ok (st2, outs)
    | .ok (st2, outs, some _) =>
      match setPeerId st2 id with
      | .thrown => .thrown
      | .diverge => .diverge
      | .ok outs2 => .ok (st2, outs ++ outs2)

/-! ## Reachable states -/

/-- States reachable from the empty initial state by the three external
event kinds.  The freshness side conditions on `connect` are the
postconditions of `Crypto.randomUUID()` (process-unique) and of the
`createLobby` re-roll loop (code distinct from every active lobby).  An
event whose handler throws or diverges kills the process and yields no
successor state. -/
inductive Reachable (cfg : Config) : ServerState → Prop
  | init : Reachable cfg { peers := [], lobbies := [] }
  | connect {s s' : ServerState} {id newCode : String} {reqCode : Option String}
      {outs : List Output} :
      Reachable cfg s → findPeer s id = none → findLobby s newCode = none →
      newCode.length = LOBBY_ID_LENGTH →
      (∀ c ∈ newCode.toList, LOBBY_ID_CHARS.toList.contains c) →
      onConnection cfg s id reqCode newCode = .ok (s', outs) → Reachable cfg s'
  | message {s s' : ServerState} {id : String} {parsed : Option JValue}
      {outs : List Output} :
      Reachable cfg s → handlePeerMessage s id parsed = .ok (s', outs) →
      Reachable cfg s'
  | close {s s' : ServerState} {id : String} {outs : List Output} :
      Reachable cfg s → disconnectPeer s id = (s', outs) → Reachable cfg s'

/-! ## Invariant predicates -/

/-- Membership consistency: every lobby member resolves to a registered
peer whose lobby reference is that lobby's code. -/
def WFState (s : ServerState) : Prop :=
  ∀ l ∈ s.lobbies, ∀ m ∈ l.members, ∃ p, findPeer s m = some p ∧ p.lobbyId = l.id

/-- Lobby codes generated by `createLobby` are nonempty (they are six
draws from the alphabet). -/
def LobbyIdsValid (s : ServerState) : Prop :=
  ∀ l ∈ s.lobbies, l.id ≠ ""

/-- Lobby codes are unique among the active lobbies (`createLobby`
re-rolls on collision). -/
def LobbyIdsNodup (s : ServerState) : Prop :=
  (s.lobbies.map Lobby.id).Nodup

/-- The host invariant: any lobby member whose host flag is set is the
peer whose connection created the lobby.  In particular at most one
member of a lobby is a host. -/
def HostInv (s : ServerState) : Prop :=
  ∀ l ∈ s.lobbies, ∀ m ∈ l.members, ∀ p, findPeer s m = some p → p.isHost = true →
    m = l.creator

/-- The inductive invariant carried through every event. -/
def StateInv (s : ServerState) : Prop :=
  WFState s ∧ LobbyIdsValid s ∧ LobbyIdsNodup s ∧ HostInv s

/-! ## Scenario machinery -/

/-- The candidate name the collision loop builds at counter `n`:
`` `${dataName} (${n})` ``. -/
def suffixName (dataName : JValue) (n : Nat) : JValue :=
  .str (jsToString dataName ++ " (" ++ Nat.repr n ++ ")")

/-- A well-formed PEER_CONNECT announcement carrying display name `nm`
(the `peer_index` a client submits is ignored on this path). -/
def mkAnnounce (nm : String) : JValue :=
  .obj [("type", .num PEER_CONNECT), ("peer_index", .str ""),
        ("data", .obj [("name", .str nm)])]

/-- Project a successful handler outcome to its state. -/
def stepOk (r : JsResult (ServerState × List Output)) : Option ServerState :=
  match r with
  | .ok (st, _) => some st
  | _ => none

/-- Three peers connect to one lobby and each announces the name `"X"`;
the result is the triple of display names finally stored for them. -/
def threeSameNames : Option (JValue × JValue × JValue) :=
  match stepOk (onConnection shippedConfig { peers := [], lobbies := [] }
      "a" none "AAAAAA") with
  | none => none
  | some s1 =>
    match stepOk (handlePeerMessage s1 "a" (some (mkAnnounce "X"))) with
    | none => none
    | some s2 =>
      match stepOk (onConnection shippedConfig s2 "b" (some "AAAAAA") "BBBBBB") with
      | none => none
      | some s3 =>
        match stepOk (handlePeerMessage s3 "b" (some (mkAnnounce "X"))) with
        | none => none
        | some s4 =>
          match stepOk (onConnection shippedConfig s4 "c" (some "AAAAAA") "BBBBBB") with
          | none => none
          | some s5 =>
            match stepOk (handlePeerMessage s5 "c" (some (mkAnnounce "X"))) with
            | none => none
            | some s6 =>
              match findPeer s6 "a", findPeer s6 "b", findPeer s6 "c" with
              | some pa, some pb, some pc => some (pa.name, pb.name, pc.name)
              | _, _, _ => none

/-- One sequential join-then-handshake step: peer `pid` connects (the
first peer creates the lobby whose code re-roll draws `code`, later
peers supply `code` in the URL), then sends one PEER_CONNECT announcing
its own id as display name.  Returns the state and the number of
messages the handshake emitted. -/
def joinAnnounce (cfg : Config) (code : String) (st : ServerState) (pid : String)
    (first : Bool) : JsResult (ServerState × Nat) :=
  match onConnection cfg st pid (if first then none else some code) code with
  | .thrown => .thrown
  | .diverge => .diverge
  | .ok (st1, _) =>
    match handlePeerMessage st1 pid (some (mkAnnounce pid)) with
    | .thrown => .thrown
    | .diverge => .diverge
    | .ok (st2, outs) => .ok (st2, outs.length)

/-- Tail of the sequential-join scenario: the remaining peers join an
already-created lobby and announce, collecting per-handshake message
counts. -/
def runSeqAux (cfg : Config) (code : String) (st : ServerState) :
    List String → JsResult (ServerState × List Nat)
  | [] => .ok (st, [])
  | pid :: rest =>
    match joinAnnounce cfg code st pid false with
    | .thrown => .thrown
    | .diverge => .diverge
    | .ok (st1, n) =>
      match runSeqAux cfg code st1 rest with
      | .thrown => .thrown
      | .diverge => .diverge
      | .ok (st2, ns) => .ok (st2, n :: ns)

/-- The full N-peer sequential scenario from the empty server: the first
peer creates the lobby, every later peer joins it by code, and each
announces exactly once right after joining. -/
def runSeq (cfg : Config) (code : String) (ids : List String) :
    JsResult (ServerState × List Nat) :=
  match ids with
  | [] => .ok ({ peers := [], lobbies := [] }, [])
  | pid :: rest =>
    match joinAnnounce cfg code { peers := [], lobbies := [] } pid true with
    | .thrown => .thrown
    | .diverge => .diverge
    | .ok (st1, n) =>
      match runSeqAux cfg code st1 rest with
      | .thrown => .thrown
      | .diverge => .diverge
      | .ok (st2, ns) => .ok (st2, n :: ns)

/-- The peer record of a scenario participant after it has joined lobby
`code` and announced its own id as display name. -/
def seqPeer (code : String) (host : Bool) (pid : String) : Peer :=
  { id := pid, name := .str pid, isHost := host, lobbyId := code }

/-- The server state after the lobby creator `leader` and then the peers
in `done` (in order) have each joined lobby `code` and announced. -/
def expectedSt (code : String) (leader : String) (done : List String) : ServerState :=
  { peers := seqPeer code true leader :: done.map (seqPeer code false),
    lobbies := [{ id := code, members := leader :: done, creator := leader }] }

/-- Intermediate state of the scenario's first connection: peer
registered and marked host, lobby created, membership not yet filled. -/
def preLobbySt (code leader : String) : ServerState :=
  { peers := [{ id := leader, name := .str "Player", isHost := true, lobbyId := "" }],
    lobbies := [{ id := code, members := [], creator := leader }] }

/-- As `preLobbySt` but with the peer's lobby reference assigned. -/
def hostOnlySt (code leader : String) : ServerState :=
  { peers := [{ id := leader, name := .str "Player", isHost := true, lobbyId := code }],
    lobbies := [{ id := code, members := [], creator := leader }] }

/-- The state after the scenario's first connection completes: the
creator is host and the lobby's sole member, name still the default. -/
def firstJoinedSt (code leader : String) : ServerState :=
  { peers := [{ id := leader, name := .str "Player", isHost := true, lobbyId := code }],
    lobbies := [{ id := code, members := [leader], creator := leader }] }

/-! ## Concrete states for witnesses and counterexamples -/

def wLobbyCode : String := "AAAAAA"
def wPeerA : Peer := { id := "a", name := .str "Alice", isHost := true, lobbyId := wLobbyCode }
def wPeerB : Peer := { id := "b", name := .str "Bob", isHost := false, lobbyId := wLobbyCode }
def wPeerC : Peer := { id := "c", name := .str "Carol", isHost := true, lobbyId := "CCCCCC" }

/-- Two peers sharing one lobby. -/
def wSt : ServerState :=
  { peers := [wPeerA, wPeerB],
    lobbies := [{ id := wLobbyCode, members := ["a", "b"], creator := "a" }] }

/-- Two peers sharing one lobby plus a third peer in a second lobby. -/
def wSt2 : ServerState :=
  { peers := [wPeerA, wPeerB, wPeerC],
    lobbies := [{ id := wLobbyCode, members := ["a", "b"], creator := "a" },
                { id := "CCCCCC", members := ["c"], creator := "c" }] }

/-- A configuration with a per-lobby ceiling of 1, and a state holding a
full lobby plus a freshly connected peer `"j"` that has not joined any
lobby yet. -/
def cfgSmall : Config := { maxPeers := 10, maxLobbySize := 1 }
def fullLobbySt : ServerState :=
  { peers := [{ id := "h", name := .str "Host", isHost := true, lobbyId := "AAAAAA" },
              { id := "j", name := .str "Player", isHost := false, lobbyId := "" }],
    lobbies := [{ id := "AAAAAA", members := ["h"], creator := "h" }] }

/-- A lone registered peer outside any lobby. -/
def loneSt : ServerState :=
  { peers := [{ id := "a", name := .str "Player", isHost := false, lobbyId := "" }],
    lobbies := [] }

/-- One lobby where `"a"` already announced the name `"X"` and `"b"` has
joined but not yet announced. -/
def collideSt : ServerState :=
  { peers := [{ id := "a", name := .str "X", isHost := true, lobbyId := "AAAAAA" },
              { id := "b", name := .str "Player", isHost := false, lobbyId := "AAAAAA" }],
    lobbies := [{ id := "AAAAAA", members := ["a", "b"], creator := "a" }] }

/-- The state after the first connection (`"a"`, no code, lobby draw
`"AAAAAA"`) is accepted from the empty server. -/
def firstConnSt : ServerState :=
  { peers := [{ id := "a", name := .str "Player", isHost := true, lobbyId := "AAAAAA" }],
    lobbies := [{ id := "AAAAAA", members := ["a"], creator := "a" }] }

/-! ## Basic lemmas about the registries -/

theorem findPeer_id {st : ServerState} {x : String} {p : Peer}
    (h : findPeer st x = some p) : p.id = x := by
  have := List.find?_some h
  exact eq_of_beq this

theorem findPeer_mem {st : ServerState} {x : String} {p : Peer}
    (h : findPeer st x = some p) : p ∈ st.peers :=
  List.mem_of_find?_eq_some h

theorem findLobby_id {st : ServerState} {x : String} {l : Lobby}
    (h : findLobby st x = some l) : l.id = x := by
  have := List.find?_some h
  exact eq_of_beq this

theorem findLobby_mem {st : ServerState} {x : String} {l : Lobby}
    (h : findLobby st x = some l) : l ∈ st.lobbies :=
  List.mem_of_find?_eq_some h

theorem lobbies_updatePeer (st : ServerState) (id : String) (f : Peer → Peer) :
    (updatePeer st id f).lobbies = st.lobbies := rfl

theorem peers_updateLobby (st : ServerState) (c : String) (f : Lobby → Lobby) :
    (updateLobby st c f).peers = st.peers := rfl

theorem findLobby_updatePeer (st : ServerState) (id : String) (f : Peer → Peer)
    (c : String) : findLobby (updatePeer st id f) c = findLobby st c := rfl

theorem findPeer_updateLobby (st : ServerState) (c : String) (f : Lobby → Lobby)
    (x : String) : findPeer (updateLobby st c f) x = findPeer st x := rfl

theorem findPeer_updatePeer (st : ServerState) (id x : String) (f : Peer → Peer)
    (hf : ∀ p, (f p).id = p.id) :
    findPeer (updatePeer st id f) x =
      (findPeer st x).map (fun p => if p.id == id then f p else p) := by
  unfold findPeer updatePeer
  rw [List.find?_map]
  have hpred : ((fun p : Peer => p.id == x) ∘ fun p => if p.id == id then f p else p)
      = (fun p : Peer => p.id == x) := by
    funext q
    by_cases h : q.id == id <;> simp [Function.comp, h, hf]
  rw [hpred]

theorem findPeer_updatePeer_ne {st : ServerState} {id x : String} {f : Peer → Peer}
    (hf : ∀ p, (f p).id = p.id) (hx : x ≠ id) :
    findPeer (updatePeer st id f) x = findPeer st x := by
  rw [findPeer_updatePeer st id x f hf]
  cases hp : findPeer st x with
  | none => rfl
  | some p =>
    have hpid : p.id = x := findPeer_id hp
    simp [hpid, hx]

theorem findPeer_updatePeer_self {st : ServerState} {id : String} {f : Peer → Peer}
    (hf : ∀ p, (f p).id = p.id) :
    findPeer (updatePeer st id f) id = (findPeer st id).map f := by
  rw [findPeer_updatePeer st id id f hf]
  cases hp : findPeer st id with
  | none => rfl
  | some p =>
    have hpid : p.id = id := findPeer_id hp
    simp [hpid]

theorem findPeer_removePeer_ne {st : ServerState} {id x : String} (hx : x ≠ id) :
    findPeer (removePeer st id) x = findPeer st x := by
  unfold findPeer removePeer
  rw [List.find?_filter]
  congr 1
  funext q
  by_cases h : q.id == x
  · have : q.id = x := eq_of_beq h
    simp [h, this, hx]
  · simp [h]

theorem findPeer_removePeer_self (st : ServerState) (id : String) :
    findPeer (removePeer st id) id = none := by
  unfold findPeer removePeer
  rw [List.find?_filter]
  apply List.find?_eq_none.mpr
  intro q _
  by_cases h : q.id == id
  · have := eq_of_beq h
    simp [this]
  · simp [h]

theorem findPeer_connectPeer_old {st : ServerState} {x id : String} {p : Peer}
    (h : findPeer st x = some p) : findPeer (connectPeer st id) x = some p := by
  unfold findPeer connectPeer at *
  rw [List.find?_append, h]
  rfl

theorem findPeer_connectPeer_fresh {st : ServerState} {id : String}
    (h : findPeer st id = none) :
    findPeer (connectPeer st id) id =
      some { id := id, name := .str "Player", isHost := false, lobbyId := "" } := by
  unfold findPeer connectPeer at *
  rw [List.find?_append, h]
  simp

theorem findLobby_connectPeer (st : ServerState) (id : String) (c : String) :
    findLobby (connectPeer st id) c = findLobby st c := rfl

theorem findPeer_createLobby (st : ServerState) (c cr : String) (x : String) :
    findPeer (createLobby st c cr) x = findPeer st x := rfl

theorem findLobby_createLobby_old {st : ServerState} {x c cr : String} {l : Lobby}
    (h : findLobby st x = some l) : findLobby (createLobby st c cr) x = some l := by
  unfold findLobby createLobby at *
  rw [List.find?_append, h]
  rfl

theorem findLobby_createLobby_self {st : ServerState} {c cr : String}
    (h : findLobby st c = none) :
    findLobby (createLobby st c cr) c =
      some { id := c, members := [], creator := cr } := by
  unfold findLobby createLobby at *
  rw [List.find?_append, h]
  simp

theorem validateLobbyId_true {st : ServerState} {code : String}
    (h1 : code.length = LOBBY_ID_LENGTH)
    (h2 : ∀ c ∈ code.toList, LOBBY_ID_CHARS.toList.contains c)
    (h3 : (findLobby st code).isSome) : validateLobbyId st code = true := by
  unfold validateLobbyId
  rw [h1]
  simp only [bne_self_eq_false, Bool.false_eq_true, if_false]
  rw [List.all_eq_true.mpr h2]
  cases h : findLobby st code with
  | none => rw [h] at h3; simp at h3
  | some l => simp [h]

theorem jsEq_num_num (a b : Int) : jsEq (.num a) (.num b) = (a == b) := rfl

/-- C4.  The claim asserts that *every* structurally invalid payload —
including packets that are not valid JSON, packets decoding to `null`,
and PEER_CONNECT packets whose `data` is `null` — closes the offending
connection with INVALID_PAYLOAD and never escalates to process-level
failure.  The code disagrees on exactly those three inputs: `JSON.parse`
throws an uncaught SyntaxError on a non-JSON packet, and the `in`
operator throws an uncaught TypeError on `null`, killing the Node
process.  The last conjunct shows the intended INVALID_PAYLOAD close on
a payload that decodes to a non-object, confirming the claim's policy on
the paths that do validate. -/
theorem malformed_payload_crash :
    handlePeerMessage loneSt "a" none = .thrown ∧
    handlePeerMessage loneSt "a" (some .null) = .thrown ∧
    handlePeerMessage loneSt "a"
      (some (.obj [("type", .num PEER_CONNECT), ("peer_index", .str ""),
                   ("data", .null)])) = .thrown ∧
    handlePeerMessage loneSt "a" (some (.num 5)) =
      .ok (loneSt, [Output.close "a" INVALID_PAYLOAD "Invalid message received"]) :=
  ⟨rfl, rfl, rfl, rfl⟩

/-- C1.  A validated relay message (OFFER, ANSWER or CANDIDATE) from a
registered sender whose destination (the peer the client's `peer_index`
names) exists and shares the sender's lobby reference is delivered to
that destination as exactly one message: same type, the identical
submitted `data`, and `peer_index` rewritten to the sender's identifier
(the client-submitted `peer_index` is used only to look the destination
up). -/
theorem relay_preserves_payload (st : ServerState) (fromId : String)
    (sender dest : Peer) (msg : JValue) (ty : Int)
    (hval : validateMessage msg = .ok true)
    (hty : jGetD msg "type" = .num ty)
    (hkind : ty = OFFER ∨ ty = ANSWER ∨ ty = CANDIDATE)
    (hfrom : findPeer st fromId = some sender)
    (hdest : findPeer st (jStrD (jGetD msg "peer_index")) = some dest)
    (hsame : dest.lobbyId = sender.lobbyId) :
    handlePeerMessage st fromId (some msg) =
      .ok (st, [Output.send dest.id ty fromId (some (jGetD msg "data"))]) := by
  have hpc : jsEq (jGetD msg "type") (.num PEER_CONNECT) = false := by
    rw [hty, jsEq_num_num]
    rcases hkind with h | h | h <;> subst h <;> rfl
  have hnum : jNumD (jGetD msg "type") = ty := by rw [hty]; rfl
  simp only [handlePeerMessage, hval, hpc, hdest, hfrom, hsame, hnum,
    Bool.false_eq_true, if_false, bne_self_eq_false]

theorem relay_preserves_payload_witness :
    handlePeerMessage wSt "a"
      (some (.obj [("type", .num OFFER), ("peer_index", .str "b"),
                   ("data", .str "sdp")])) =
      .ok (wSt, [Output.send "b" OFFER "a" (some (.str "sdp"))]) :=
  relay_preserves_payload wSt "a" wPeerA wPeerB
    (.obj [("type", .num OFFER), ("peer_index", .str "b"), ("data", .str "sdp")])
    OFFER rfl rfl (Or.inl rfl) rfl rfl rfl

/-- C2.  A validated relay message whose destination does not exist in
the peer registry, or whose destination's lobby reference differs from
the sender's, closes the sender's connection with UNAUTHORIZED and is
delivered to no peer (the handler's only output is the close). -/
theorem relay_unauthorized_close (st : ServerState) (fromId : String)
    (sender : Peer) (msg : JValue) (ty : Int)
    (hval : validateMessage msg = .ok true)
    (hty : jGetD msg "type" = .num ty)
    (hkind : ty = OFFER ∨ ty = ANSWER ∨ ty = CANDIDATE)
    (hfrom : findPeer st fromId = some sender)
    (hbad : findPeer st (jStrD (jGetD msg "peer_index")) = none ∨
            ∃ dest, findPeer st (jStrD (jGetD msg "peer_index")) = some dest ∧
              dest.lobbyId ≠ sender.lobbyId) :
    handlePeerMessage st fromId (some msg) =
      .ok (st, [Output.close fromId UNAUTHORIZED
                  "Destination peer is not in the same lobby"]) := by
  have hpc : jsEq (jGetD msg "type") (.num PEER_CONNECT) = false := by
    rw [hty, jsEq_num_num]
    rcases hkind with h | h | h <;> subst h <;> rfl
  rcases hbad with hnone | ⟨dest, hdest, hdiff⟩
  · simp only [handlePeerMessage, hval, hpc, hnone, hfrom,
      Bool.false_eq_true, if_false]
  · have hbne : (dest.lobbyId != sender.lobbyId) = true := by
      simp [bne, hdiff]
    simp only [handlePeerMessage, hval, hpc, hdest, hfrom, hbne,
      Bool.false_eq_true, if_false, if_true]

theorem relay_unauthorized_close_witness :
    handlePeerMessage wSt2 "a"
      (some (.obj [("type", .num OFFER), ("peer_index", .str "c"),
                   ("data", .str "sdp")])) =
      .ok (wSt2, [Output.close "a" UNAUTHORIZED
                    "Destination peer is not in the same lobby"]) :=
  relay_unauthorized_close wSt2 "a" wPeerA
    (.obj [("type", .num OFFER), ("peer_index", .str "c"), ("data", .str "sdp")])
    OFFER rfl rfl (Or.inl rfl) rfl
    (Or.inr ⟨wPeerC, rfl, by decide⟩)

/-- C10.  Self-directed relay is permitted: when a validated OFFER,
ANSWER or CANDIDATE names the sender's own identifier as `peer_index`,
the destination lookup finds the sender itself, the lobby comparison is
trivially equal, and the message is delivered back to the sender instead
of being rejected with UNAUTHORIZED. -/
theorem self_relay_allowed (st : ServerState) (fromId : String)
    (sender : Peer) (lobby : Lobby) (msg : JValue) (ty : Int)
    (hval : validateMessage msg = .ok true)
    (hty : jGetD msg "type" = .num ty)
    (hkind : ty = OFFER ∨ ty = ANSWER ∨ ty = CANDIDATE)
    (hfrom : findPeer st fromId = some sender)
    (_hlobby : findLobby st sender.lobbyId = some lobby)
    (_hmem : fromId ∈ lobby.members)
    (hself : jGetD msg "peer_index" = .str fromId) :
    handlePeerMessage st fromId (some msg) =
      .ok (st, [Output.send fromId ty fromId (some (jGetD msg "data"))]) := by
  have hdest : findPeer st (jStrD (jGetD msg "peer_index")) = some sender := by
    rw [hself]; exact hfrom
  have hid : sender.id = fromId := findPeer_id hfrom
  have h := relay_preserves_payload st fromId sender sender msg ty hval hty hkind
    hfrom hdest rfl
  rw [hid] at h
  exact h

theorem self_relay_allowed_witness :
    handlePeerMessage wSt "a"
      (some (.obj [("type", .num CANDIDATE), ("peer_index", .str "a"),
                   ("data", .str "ice")])) =
      .ok (wSt, [Output.send "a" CANDIDATE "a" (some (.str "ice"))]) :=
  self_relay_allowed wSt "a" wPeerA
    { id := wLobbyCode, members := ["a", "b"], creator := "a" }
    (.obj [("type", .num CANDIDATE), ("peer_index", .str "a"), ("data", .str "ice")])
    CANDIDATE rfl rfl (Or.inr (Or.inr rfl)) rfl rfl (by decide) rfl

/-- C3 counterexample.  The claim says a join attempt against a full
lobby leaves the joining peer's state — *including its lobby
reference* — unchanged.  On the concrete full-lobby state the join is
rejected with FORBIDDEN and membership is untouched, but the joining
peer's `lobbyId` has been overwritten from `""` to `"AAAAAA"`: the
source stores `peer.lobbyId = lobbyId` before the capacity check. -/
theorem joinFull_lobbyRef_cex :
    joinLobby cfgSmall fullLobbySt "j" (some "AAAAAA") "BBBBBB" =
      .ok ({ peers := [{ id := "h", name := .str "Host", isHost := true,
                         lobbyId := "AAAAAA" },
                       { id := "j", name := .str "Player", isHost := false,
                         lobbyId := "AAAAAA" }],
             lobbies := fullLobbySt.lobbies },
           [Output.close "j" FORBIDDEN "Lobby is full"], none) ∧
    (findPeer fullLobbySt "j").map Peer.lobbyId = some "" ∧
    ("" : String) ≠ "AAAAAA" :=
  ⟨rfl, rfl, by decide⟩

/-- C3 as amended.  Joining a lobby whose membership is at the
per-lobby ceiling closes the joining connection with FORBIDDEN, mutates
no lobby (so membership is unchanged), leaves every other peer's state
unchanged, and leaves the joining peer's record unchanged *except* that
its lobby reference has been overwritten with the target lobby's code
(the source performs that write before the capacity check); in
particular the host flag is unchanged. -/
theorem joinFull_amended (cfg : Config) (st : ServerState) (id code newCode : String)
    (p : Peer) (lobby : Lobby)
    (hp : findPeer st id = some p)
    (hvalid : validateLobbyId st code = true)
    (hlobby : findLobby st code = some lobby)
    (hfull : lobby.members.length ≥ cfg.maxLobbySize) :
    ∃ st', joinLobby cfg st id (some code) newCode =
        .ok (st', [Output.close id FORBIDDEN "Lobby is full"], none) ∧
      st'.lobbies = st.lobbies ∧
      (∀ x, x ≠ id → findPeer st' x = findPeer st x) ∧
      findPeer st' id = some { p with lobbyId := code } := by
  refine ⟨updatePeer st id (fun q => { q with lobbyId := code }), ?_, rfl, ?_, ?_⟩
  · have hlobby1 : findLobby (updatePeer st id fun q => { q with lobbyId := code })
        code = some lobby := hlobby
    simp only [joinLobby, hp, hvalid, hlobby1, Bool.true_eq_false,
      Bool.not_true, if_false, ge_iff_le, hfull, if_true]
    simp [hfull]
  · intro x hx
    exact findPeer_updatePeer_ne (fun q => rfl) hx
  · rw [findPeer_updatePeer st id id (fun q => { q with lobbyId := code })
      (fun q => rfl), hp]
    have hpid := findPeer_id hp
    simp [hpid]

theorem joinFull_amended_witness :
    ∃ st', joinLobby cfgSmall fullLobbySt "j" (some "AAAAAA") "BBBBBB" =
        .ok (st', [Output.close "j" FORBIDDEN "Lobby is full"], none) ∧
      st'.lobbies = fullLobbySt.lobbies ∧
      (∀ x, x ≠ "j" → findPeer st' x = findPeer fullLobbySt x) ∧
      findPeer st' "j" = some { id := "j", name := .str "Player", isHost := false,
                                lobbyId := "AAAAAA" } :=
  joinFull_amended cfgSmall fullLobbySt "j" "AAAAAA" "BBBBBB"
    { id := "j", name := .str "Player", isHost := false, lobbyId := "" }
    { id := "AAAAAA", members := ["h"], creator := "h" }
    rfl rfl rfl (by decide)

/-- C8 counterexample.  The claim says an inbound client message of
type PEER_DISCONNECT is never forwarded to any peer.  On a two-member
lobby, a client-sent PEER_DISCONNECT naming the other member validates
and takes the relay branch like any non-PEER_CONNECT type, and is
delivered to that member with `peer_index` rewritten to the sender. -/
theorem clientPeerDisconnect_forwarded_cex :
    handlePeerMessage wSt "a"
      (some (.obj [("type", .num PEER_DISCONNECT), ("peer_index", .str "b"),
                   ("data", .null)])) =
      .ok (wSt, [Output.send "b" PEER_DISCONNECT "a" (some .null)]) := rfl

/-- C8 as amended.  The relay branch forwards *every* validated
non-PEER_CONNECT message — including client-originated PEER_DISCONNECT
(and SET_ID) — to the same-lobby destination with `peer_index`
rewritten to the sender; additionally, the disconnect sequence
synthesizes a PEER_DISCONNECT (with the departed peer's identifier as
`peer_index`) to every member of the lobby the departed peer
referenced. -/
theorem peerDisconnect_amended :
    (∀ (st : ServerState) (fromId : String) (sender dest : Peer) (msg : JValue),
      validateMessage msg = .ok true →
      jGetD msg "type" = .num PEER_DISCONNECT →
      findPeer st fromId = some sender →
      findPeer st (jStrD (jGetD msg "peer_index")) = some dest →
      dest.lobbyId = sender.lobbyId →
      handlePeerMessage st fromId (some msg) =
        .ok (st, [Output.send dest.id PEER_DISCONNECT fromId
                    (some (jGetD msg "data"))])) ∧
    (∀ (st st' : ServerState) (id : String) (peer : Peer) (outs : List Output)
       (lobby : Lobby) (mid : String) (m : Peer),
      findPeer st id = some peer →
      disconnectPeer st id = (st', outs) →
      findLobby st' peer.lobbyId = some lobby →
      mid ∈ lobby.members → findPeer st' mid = some m →
      Output.send m.id PEER_DISCONNECT id none ∈ outs) := by
  constructor
  · intro st fromId sender dest msg hval hty hfrom hdest hsame
    have hpc : jsEq (jGetD msg "type") (.num PEER_CONNECT) = false := by
      rw [hty, jsEq_num_num]; rfl
    have hnum : jNumD (jGetD msg "type") = PEER_DISCONNECT := by rw [hty]; rfl
    simp only [handlePeerMessage, hval, hpc, hdest, hfrom, hsame, hnum,
      Bool.false_eq_true, if_false, bne_self_eq_false]
  · intro st st' id peer outs lobby mid m hp hdisc hlobby hmid hm
    have h1 : (disconnectPeer st id).1 = st' := by rw [hdisc]
    have h2 : (disconnectPeer st id).2 = outs := by rw [hdisc]
    simp only [disconnectPeer, hp] at h1 h2
    cases hl : findLobby (removePeer (leaveLobby st peer) id) peer.lobbyId with
    | none =>
      rw [hl] at h1
      rw [← h1] at hlobby
      rw [hl] at hlobby
      exact Option.noConfusion hlobby
    | some L =>
      rw [hl] at h1 h2
      rw [← h1] at hlobby hm
      rw [hl] at hlobby
      have hL : L = lobby := by injection hlobby
      subst hL
      subst h2
      refine List.mem_flatMap.mpr ⟨mid, hmid, ?_⟩
      simp [hm]

theorem peerDisconnect_amended_witness :
    handlePeerMessage wSt "a"
      (some (.obj [("type", .num PEER_DISCONNECT), ("peer_index", .str "b"),
                   ("data", .num 0)])) =
      .ok (wSt, [Output.send "b" PEER_DISCONNECT "a" (some (.num 0))]) ∧
    Output.send "a" PEER_DISCONNECT "b" none ∈
      (disconnectPeer wSt "b").2 :=
  ⟨peerDisconnect_amended.1 wSt "a" wPeerA wPeerB
     (.obj [("type", .num PEER_DISCONNECT), ("peer_index", .str "b"),
            ("data", .num 0)]) rfl rfl rfl rfl rfl,
   peerDisconnect_amended.2 wSt
     ({ peers := [wPeerA],
        lobbies := [{ id := wLobbyCode, members := ["a"], creator := "a" }] })
     "b" wPeerB [Output.send "a" PEER_DISCONNECT "b" none]
     { id := wLobbyCode, members := ["a"], creator := "a" }
     "a" wPeerA rfl rfl rfl (by decide) rfl⟩

/-- C6 counterexample.  The claim says the introduction message an
existing member receives carries the announcer's data with the name
field reflecting the *deduplicated* name.  In the concrete collision
state, `"b"` announces `"X"`, the collision with `"a"` resolves the
stored name to `"X (1)"`, yet the message delivered to `"a"` carries
`data = {name: "X"}` — the originally submitted, still-colliding name:
`setPlayerName` updates only the peer record, never `message.data`. -/
theorem introData_originalName_cex :
    handlePeerMessage collideSt "b" (some (mkAnnounce "X")) =
      .ok ({ peers := [{ id := "a", name := .str "X", isHost := true,
                         lobbyId := "AAAAAA" },
                       { id := "b", name := .str "X (1)", isHost := false,
                         lobbyId := "AAAAAA" }],
             lobbies := [{ id := "AAAAAA", members := ["a", "b"], creator := "a" }] },
           [Output.send "b" PEER_CONNECT "a"
              (some (.obj [("name", .str "X"), ("is_host", .bool true),
                           ("preexisting", .bool true)])),
            Output.send "a" PEER_CONNECT "b"
              (some (.obj [("name", .str "X")]))]) ∧
    ("X" : String) ≠ "X (1)" :=
  ⟨rfl, by decide⟩

/-- C6 as amended.  When peer F announces via PEER_CONNECT, the
introduction message sent to each existing member P carries
`peer_index = F`'s identifier and a data payload equal to F's
*originally submitted* data object — the name field still carries the
submitted (possibly colliding) name; the post-collision-resolution name
is stored only in F's peer record. -/
theorem introData_amended (st st1 : ServerState) (fromId : String) (sender : Peer)
    (lobby : Lobby) (msg : JValue)
    (hfrom : findPeer st fromId = some sender)
    (hlobby : findLobby st sender.lobbyId = some lobby)
    (hname : setPlayerName st (jGetD (jGetD msg "data") "name") lobby fromId
      = some st1) :
    ∃ outs, handlePeerConnection st fromId msg = .ok (st1, outs) ∧
      ∀ destId dest, destId ∈ lobby.members → destId ≠ fromId →
        findPeer st1 destId = some dest →
        Output.send destId PEER_CONNECT fromId (some (jGetD msg "data")) ∈ outs := by
  refine ⟨lobby.members.flatMap (fun destId =>
    if destId != fromId then
      match findPeer st1 destId with
      | some dest =>
        [Output.send sender.id PEER_CONNECT destId
           (some (.obj [("name", dest.name), ("is_host", .bool dest.isHost),
                        ("preexisting", .bool true)])),
         Output.send dest.id PEER_CONNECT fromId (some (jGetD msg "data"))]
      | none => []
    else []), ?_, ?_⟩
  · simp only [handlePeerConnection, hfrom, hlobby, hname]
  · intro destId dest hdmem hne hdest
    refine List.mem_flatMap.mpr ⟨destId, hdmem, ?_⟩
    have hbne : (destId != fromId) = true := by simp [bne_iff_ne, hne]
    have hdid : dest.id = destId := findPeer_id hdest
    simp [hbne, hdest, hdid]

theorem introData_amended_witness :
    ∃ outs, handlePeerConnection collideSt "b" (mkAnnounce "X") =
      .ok ({ peers := [{ id := "a", name := .str "X", isHost := true,
                         lobbyId := "AAAAAA" },
                       { id := "b", name := .str "X (1)", isHost := false,
                         lobbyId := "AAAAAA" }],
             lobbies := [{ id := "AAAAAA", members := ["a", "b"],
                           creator := "a" }] }, outs) ∧
      ∀ destId dest, destId ∈ ["a", "b"] → destId ≠ "b" →
        findPeer { peers := [{ id := "a", name := .str "X", isHost := true,
                               lobbyId := "AAAAAA" },
                             { id := "b", name := .str "X (1)", isHost := false,
                               lobbyId := "AAAAAA" }],
                   lobbies := [{ id := "AAAAAA", members := ["a", "b"],
                                 creator := "a" }] } destId = some dest →
        Output.send destId PEER_CONNECT "b"
          (some (jGetD (mkAnnounce "X") "data")) ∈ outs :=
  introData_amended collideSt _ "b"
    { id := "b", name := .str "Player", isHost := false, lobbyId := "AAAAAA" }
    { id := "AAAAAA", members := ["a", "b"], creator := "a" }
    (mkAnnounce "X") rfl rfl rfl

/-- What the collision loop returns when it terminates: either the
initial candidate was free and is returned unchanged, or it was taken
and the result is the suffixed candidate for the first free counter
value at or after the starting counter. -/
theorem resolveNameLoop_spec (others : List Peer) (fromId : String)
    (dataName : JValue) :
    ∀ (fuel it : Nat) (cand nm : JValue),
      resolveNameLoop others fromId dataName fuel cand it = some nm →
      (nameTaken others fromId cand = false ∧ nm = cand) ∨
      (nameTaken others fromId cand = true ∧
        ∃ n, it ≤ n ∧ nm = suffixName dataName n ∧
          nameTaken others fromId (suffixName dataName n) = false ∧
          ∀ k, it ≤ k → k < n → nameTaken others fromId (suffixName dataName k) = true) := by
  intro fuel
  induction fuel with
  | zero => intro it cand nm h; exact Option.noConfusion h
  | succ fuel ih =>
    intro it cand nm h
    unfold resolveNameLoop at h
    by_cases htaken : nameTaken others fromId cand = true
    · rw [if_pos htaken] at h
      right
      refine ⟨htaken, ?_⟩
      rcases ih (it + 1) (suffixName dataName it) nm h with
        ⟨hfree, hnm⟩ | ⟨htaken2, n, hn, hnm, hfree, hprev⟩
      · exact ⟨it, le_refl it, hnm, hfree, fun k hk1 hk2 => absurd hk1 (by omega)⟩
      · refine ⟨n, by omega, hnm, hfree, ?_⟩
        intro k hk1 hk2
        by_cases hke : k = it
        · subst hke
          exact htaken2
        · exact hprev k (by omega) hk2
    · rw [if_neg htaken] at h
      left
      refine ⟨by simp only [Bool.not_eq_true] at htaken; exact htaken, ?_⟩
      injection h with h'
      exact h'.symm

/-- C5.  First conjunct: whenever `setPlayerName` completes, the name it
assigns to the announcing peer is the submitted name if no other current
lobby member's name matches it, and otherwise the suffixed name
`` `${submitted} (${n})` `` for the least `n ≥ 1` whose suffixed form
matches no other member's name.  Second conjunct: three peers joining
one lobby and successively announcing the identical name `"X"` end up
stored as `"X"`, `"X (1)"` and `"X (2)"`. -/
theorem name_dedup_spec :
    (∀ (st st' : ServerState) (dataName : JValue) (lobby : Lobby) (fromId : String),
      setPlayerName st dataName lobby fromId = some st' →
      ∃ nm, st' = updatePeer st fromId (fun p => { p with name := nm }) ∧
        ((nameTaken (lobby.members.filterMap (findPeer st)) fromId dataName = false ∧
            nm = dataName) ∨
         (nameTaken (lobby.members.filterMap (findPeer st)) fromId dataName = true ∧
           ∃ n, 1 ≤ n ∧ nm = suffixName dataName n ∧
             nameTaken (lobby.members.filterMap (findPeer st)) fromId
               (suffixName dataName n) = false ∧
             ∀ k, 1 ≤ k → k < n →
               nameTaken (lobby.members.filterMap (findPeer st)) fromId
                 (suffixName dataName k) = true))) ∧
    threeSameNames = some (.str "X", .str "X (1)", .str "X (2)") := by
  constructor
  · intro st st' dataName lobby fromId h
    simp only [setPlayerName] at h
    cases hloop : resolveNameLoop (lobby.members.filterMap (findPeer st)) fromId
        dataName ((lobby.members.filterMap (findPeer st)).length + 2) dataName 1 with
    | none => rw [hloop] at h; exact Option.noConfusion h
    | some nm =>
      rw [hloop] at h
      refine ⟨nm, by injection h with h'; exact h'.symm, ?_⟩
      exact resolveNameLoop_spec (lobby.members.filterMap (findPeer st)) fromId
        dataName _ 1 dataName nm hloop
  · rfl

theorem name_dedup_spec_witness :
    ∃ nm, ({ peers := [{ id := "a", name := .str "X", isHost := true,
                         lobbyId := "AAAAAA" },
                       { id := "b", name := .str "X (1)", isHost := false,
                         lobbyId := "AAAAAA" }],
             lobbies := [{ id := "AAAAAA", members := ["a", "b"],
                           creator := "a" }] } : ServerState) =
        updatePeer collideSt "b" (fun p => { p with name := nm }) ∧
      ((nameTaken (["a", "b"].filterMap (findPeer collideSt)) "b" (.str "X") = false ∧
          nm = .str "X") ∨
       (nameTaken (["a", "b"].filterMap (findPeer collideSt)) "b" (.str "X") = true ∧
         ∃ n, 1 ≤ n ∧ nm = suffixName (.str "X") n ∧
           nameTaken (["a", "b"].filterMap (findPeer collideSt)) "b"
             (suffixName (.str "X") n) = false ∧
           ∀ k, 1 ≤ k → k < n →
             nameTaken (["a", "b"].filterMap (findPeer collideSt)) "b"
               (suffixName (.str "X") k) = true)) :=
  name_dedup_spec.1 collideSt
    { peers := [{ id := "a", name := .str "X", isHost := true, lobbyId := "AAAAAA" },
                { id := "b", name := .str "X (1)", isHost := false,
                  lobbyId := "AAAAAA" }],
      lobbies := [{ id := "AAAAAA", members := ["a", "b"], creator := "a" }] }
    (.str "X") { id := "AAAAAA", members := ["a", "b"], creator := "a" } "b" rfl

/-! ## Lemmas for the sequential join-and-handshake scenario -/

theorem validateMessage_mkAnnounce (nm : String) :
    validateMessage (mkAnnounce nm) = .ok true := rfl

theorem jGetD_mkAnnounce_type (nm : String) :
    jGetD (mkAnnounce nm) "type" = .num PEER_CONNECT := rfl

theorem jGetD_mkAnnounce_data (nm : String) :
    jGetD (mkAnnounce nm) "data" = .obj [("name", .str nm)] := rfl

theorem find?_string_self {l : List String} {x : String} (hx : x ∈ l) :
    l.find? (fun d => d == x) = some x := by
  induction l with
  | nil => cases hx
  | cons a t ih =>
    by_cases ha : a = x
    · subst ha
      simp [List.find?_cons]
    · have hxt : x ∈ t := by
        cases List.mem_cons.mp hx with
        | inl h => exact absurd h.symm ha
        | inr h => exact h
      have hbeq : (a == x) = false := beq_eq_false_iff_ne.mpr ha
      simp [List.find?_cons, hbeq, ih hxt]

theorem find?_string_none {l : List String} {x : String} (hx : x ∉ l) :
    l.find? (fun d => d == x) = none := by
  apply List.find?_eq_none.mpr
  intro d hd hb
  exact hx ((eq_of_beq hb) ▸ hd)

theorem seqPeer_id (code : String) (host : Bool) (pid : String) :
    (seqPeer code host pid).id = pid := rfl

theorem findPeer_expected_none {code leader pid : String} {done : List String}
    (hpl : pid ≠ leader) (hpd : pid ∉ done) :
    findPeer (expectedSt code leader done) pid = none := by
  apply List.find?_eq_none.mpr
  intro p hp
  rcases List.mem_cons.mp hp with h | h
  · subst h
    intro hb
    exact hpl (eq_of_beq hb).symm
  · rcases List.mem_map.mp h with ⟨d, hd, rfl⟩
    intro hb
    exact hpd ((eq_of_beq hb) ▸ hd)

theorem findPeer_expected_leader (code leader : String) (done : List String) :
    findPeer (expectedSt code leader done) leader = some (seqPeer code true leader) := by
  unfold findPeer expectedSt
  simp [List.find?_cons, seqPeer_id]

theorem findPeer_expected_done {code leader x : String} {done : List String}
    (hx : x ∈ done) (hxl : x ≠ leader) :
    findPeer (expectedSt code leader done) x = some (seqPeer code false x) := by
  unfold findPeer expectedSt
  have hbeq : ((seqPeer code true leader).id == x) = false :=
    beq_eq_false_iff_ne.mpr (fun h => hxl h.symm)
  rw [List.find?_cons, hbeq]
  simp only [Bool.false_eq_true, if_false]
  rw [List.find?_map]
  have hcomp : ((fun p : Peer => p.id == x) ∘ seqPeer code false)
      = (fun d => d == x) := rfl
  rw [hcomp, find?_string_self hx]
  rfl

theorem findLobby_expected (code leader : String) (done : List String) :
    findLobby (expectedSt code leader done) code =
      some { id := code, members := leader :: done, creator := leader } := by
  unfold findLobby expectedSt
  simp [List.find?_cons]

theorem map_update_skip (P : List Peer) (pid : String) (g : Peer → Peer)
    (h : ∀ p ∈ P, p.id ≠ pid) :
    P.map (fun p => if p.id == pid then g p else p) = P := by
  have := List.map_congr_left (l := P)
    (f := fun p => if p.id == pid then g p else p) (g := id) (fun p hp => by
      have hbeq : (p.id == pid) = false := beq_eq_false_iff_ne.mpr (h p hp)
      simp [hbeq])
  rw [this, List.map_id]

theorem expected_peers_ids {code leader : String} {done : List String} :
    ∀ p ∈ (expectedSt code leader done).peers, p.id = leader ∨ p.id ∈ done := by
  intro p hp
  rcases List.mem_cons.mp hp with h | h
  · subst h; exact Or.inl rfl
  · rcases List.mem_map.mp h with ⟨d, hd, rfl⟩
    exact Or.inr hd

theorem updatePeer_append (P : List Peer) (L : List Lobby) (newP : Peer) (pid : String)
    (g : Peer → Peer) (hP : ∀ p ∈ P, p.id ≠ pid) (hid : newP.id = pid) :
    updatePeer { peers := P ++ [newP], lobbies := L } pid g =
      { peers := P ++ [g newP], lobbies := L } := by
  unfold updatePeer
  have : (P ++ [newP]).map (fun p => if p.id == pid then g p else p)
      = P ++ [g newP] := by
    rw [List.map_append, map_update_skip P pid g hP]
    simp [hid]
  rw [this]

theorem updateLobby_single (P : List Peer) (L0 : Lobby) (c : String)
    (g : Lobby → Lobby) (h : L0.id = c) :
    updateLobby { peers := P, lobbies := [L0] } c g =
      { peers := P, lobbies := [g L0] } := by
  unfold updateLobby
  simp [h]

theorem findPeer_append_last (P : List Peer) (L : List Lobby) (newP : Peer)
    (pid : String) (hP : ∀ p ∈ P, p.id ≠ pid) (hid : newP.id = pid) :
    findPeer { peers := P ++ [newP], lobbies := L } pid = some newP := by
  unfold findPeer
  rw [List.find?_append]
  have hnone : P.find? (fun p => p.id == pid) = none :=
    List.find?_eq_none.mpr (fun p hp hb => hP p hp (eq_of_beq hb))
  rw [hnone]
  simp [hid]

theorem findPeer_append_front {P : List Peer} {L : List Lobby} {newP p : Peer}
    {x : String} (h : List.find? (fun q => q.id == x) P = some p) :
    findPeer { peers := P ++ [newP], lobbies := L } x = some p := by
  unfold findPeer
  rw [List.find?_append, h]
  rfl

/-- One non-creating connection in the sequential scenario: starting
from the state after `leader` and `done` have joined and announced, a
fresh peer `pid` supplying the lobby code joins successfully and is sent
its SET_ID. -/
theorem onConnection_seq (cfg : Config) (code leader pid : String) (done : List String)
    (hpl : pid ≠ leader) (hpd : pid ∉ done)
    (hpeers : 1 + done.length < cfg.maxPeers)
    (hsize : 1 + done.length < cfg.maxLobbySize)
    (hlen : code.length = LOBBY_ID_LENGTH)
    (hchars : ∀ c ∈ code.toList, LOBBY_ID_CHARS.toList.contains c) :
    onConnection cfg (expectedSt code leader done) pid (some code) code =
      .ok ({ peers := (expectedSt code leader done).peers ++
               [{ id := pid, name := .str "Player", isHost := false, lobbyId := code }],
             lobbies := [{ id := code, members := (leader :: done) ++ [pid],
                           creator := leader }] },
           [Output.send pid SET_ID pid (some (.obj [("lobby_id", .str code)]))]) := by
  have hids : ∀ p ∈ (expectedSt code leader done).peers, p.id ≠ pid := by
    intro p hp
    rcases expected_peers_ids p hp with h | h
    · rw [h]; exact fun h2 => hpl h2.symm
    · intro h2; exact hpd (h2 ▸ h)
  have hconn : connectPeer (expectedSt code leader done) pid =
      { peers := (expectedSt code leader done).peers ++
          [{ id := pid, name := .str "Player", isHost := false, lobbyId := "" }],
        lobbies := [{ id := code, members := leader :: done, creator := leader }] } := rfl
  have hfresh1 : findPeer (connectPeer (expectedSt code leader done) pid) pid =
      some { id := pid, name := .str "Player", isHost := false, lobbyId := "" } := by
    rw [hconn]
    exact findPeer_append_last _ _ _ _ hids rfl
  have hvalid : validateLobbyId (connectPeer (expectedSt code leader done) pid)
      code = true := by
    apply validateLobbyId_true hlen hchars
    rw [hconn]
    unfold findLobby
    simp [List.find?_cons]
  have hupd : updatePeer (connectPeer (expectedSt code leader done) pid) pid
      (fun p => { p with lobbyId := code }) =
      { peers := (expectedSt code leader done).peers ++
          [{ id := pid, name := .str "Player", isHost := false, lobbyId := code }],
        lobbies := [{ id := code, members := leader :: done, creator := leader }] } := by
    rw [hconn]
    exact updatePeer_append _ _ _ _ _ hids rfl
  have hfindl : findLobby (updatePeer (connectPeer (expectedSt code leader done) pid)
      pid (fun p => { p with lobbyId := code })) code =
      some { id := code, members := leader :: done, creator := leader } := by
    rw [hupd]
    unfold findLobby
    simp [List.find?_cons]
  have hnotfull : ¬(done.length + 1 ≥ cfg.maxLobbySize) := by omega
  have hjoin : joinLobby cfg (connectPeer (expectedSt code leader done) pid) pid
      (some code) code =
      .ok ({ peers := (expectedSt code leader done).peers ++
               [{ id := pid, name := .str "Player", isHost := false, lobbyId := code }],
             lobbies := [{ id := code, members := (leader :: done) ++ [pid],
                           creator := leader }] }, [], some code) := by
    simp only [joinLobby, hfresh1, hvalid, Bool.not_true, Bool.false_eq_true, if_false]
    rw [hfindl]
    simp only [List.length_cons]
    rw [if_neg hnotfull]
    rw [hupd]
    rw [updateLobby_single _ _ _ _ rfl]
  have hset : setPeerId
      ({ peers := (expectedSt code leader done).peers ++
                    [{ id := pid, name := .str "Player", isHost := false,
                       lobbyId := code }],
         lobbies := [{ id := code, members := (leader :: done) ++ [pid],
                       creator := leader }] } : ServerState) pid =
      .ok [Output.send pid SET_ID pid (some (.obj [("lobby_id", .str code)]))] := by
    unfold setPeerId
    rw [findPeer_append_last _ _ _ _ hids rfl]
  have hnotcap : ¬((expectedSt code leader done).peers.length ≥ cfg.maxPeers) := by
    simp only [expectedSt, List.length_cons, List.length_map]
    omega
  simp only [onConnection, hnotcap, if_false, hjoin, hset]
  rfl

theorem jsEq_str_str (s t : String) : jsEq (.str s) (.str t) = (s == t) := rfl

theorem sum_map_two (l : List String) :
    (l.map (fun _ => (2 : Nat))).sum = 2 * l.length := by
  induction l with
  | nil => rfl
  | cons a t ih => simp [ih]; omega

/-- One announce step in the sequential scenario: peer `pid` has just
joined (its stored name is still the default), announces its own id,
gets it stored unchanged (no other member uses it), and the handshake
emits two messages per other member. -/
theorem handleAnnounce_seq (code leader pid : String) (done : List String)
    (hpl : pid ≠ leader) (hpd : pid ∉ done) :
    handlePeerMessage
      ({ peers := (expectedSt code leader done).peers ++
                    [{ id := pid, name := .str "Player", isHost := false,
                       lobbyId := code }],
         lobbies := [{ id := code, members := (leader :: done) ++ [pid],
                       creator := leader }] } : ServerState)
      pid (some (mkAnnounce pid)) =
      .ok (expectedSt code leader (done ++ [pid]),
        ((leader :: done) ++ [pid]).flatMap (fun destId =>
          if destId != pid then
            match findPeer (expectedSt code leader (done ++ [pid])) destId with
            | some dest =>
              [Output.send pid PEER_CONNECT destId
                 (some (.obj [("name", dest.name), ("is_host", .bool dest.isHost),
                              ("preexisting", .bool true)])),
               Output.send dest.id PEER_CONNECT pid
                 (some (.obj [("name", .str pid)]))]
            | none => []
          else [])) := by
  have hids : ∀ p ∈ (expectedSt code leader done).peers, p.id ≠ pid := by
    intro p hp
    rcases expected_peers_ids p hp with h | h
    · rw [h]; exact fun h2 => hpl h2.symm
    · intro h2; exact hpd (h2 ▸ h)
  have hfindp : findPeer
      ({ peers := (expectedSt code leader done).peers ++
                    [{ id := pid, name := .str "Player", isHost := false,
                       lobbyId := code }],
         lobbies := [{ id := code, members := (leader :: done) ++ [pid],
                       creator := leader }] } : ServerState) pid =
      some { id := pid, name := .str "Player", isHost := false, lobbyId := code } :=
    findPeer_append_last _ _ _ _ hids rfl
  have hfindl1 : findLobby
      ({ peers := (expectedSt code leader done).peers ++
                    [{ id := pid, name := .str "Player", isHost := false,
                       lobbyId := code }],
         lobbies := [{ id := code, members := (leader :: done) ++ [pid],
                       creator := leader }] } : ServerState) code =
      some { id := code, members := (leader :: done) ++ [pid], creator := leader } := by
    unfold findLobby
    simp [List.find?_cons]
  have htaken : nameTaken ((((leader :: done) ++ [pid]).filterMap (findPeer
      ({ peers := (expectedSt code leader done).peers ++
                    [{ id := pid, name := .str "Player", isHost := false,
                       lobbyId := code }],
         lobbies := [{ id := code, members := (leader :: done) ++ [pid],
                       creator := leader }] } : ServerState)))) pid (.str pid)
      = false := by
    unfold nameTaken
    rw [List.any_eq_false]
    intro p hp
    rcases List.mem_filterMap.mp hp with ⟨m, _, hfind⟩
    have hpm := findPeer_mem hfind
    rcases List.mem_append.mp hpm with h | h
    · rcases List.mem_cons.mp h with h2 | h2
      · rw [h2]
        simp only [seqPeer, jsEq_str_str, Bool.and_eq_true, bne_iff_ne]
        rintro ⟨-, hbeq⟩
        exact hpl (eq_of_beq hbeq).symm
      · rcases List.mem_map.mp h2 with ⟨d, hd, rfl⟩
        simp only [seqPeer, jsEq_str_str, Bool.and_eq_true, bne_iff_ne]
        rintro ⟨-, hbeq⟩
        exact hpd ((eq_of_beq hbeq) ▸ hd)
    · rcases List.mem_singleton.mp h with rfl
      simp
  have hname : setPlayerName
      ({ peers := (expectedSt code leader done).peers ++
                    [{ id := pid, name := .str "Player", isHost := false,
                       lobbyId := code }],
         lobbies := [{ id := code, members := (leader :: done) ++ [pid],
                       creator := leader }] } : ServerState) (.str pid)
      { id := code, members := (leader :: done) ++ [pid], creator := leader } pid =
      some (updatePeer
        ({ peers := (expectedSt code leader done).peers ++
                      [{ id := pid, name := .str "Player", isHost := false,
                         lobbyId := code }],
           lobbies := [{ id := code, members := (leader :: done) ++ [pid],
                         creator := leader }] } : ServerState) pid
        (fun p => { p with name := .str pid })) := by
    simp only [setPlayerName, resolveNameLoop, htaken, Bool.false_eq_true, if_false]
  have hst4 : updatePeer
      ({ peers := (expectedSt code leader done).peers ++
                    [{ id := pid, name := .str "Player", isHost := false,
                       lobbyId := code }],
         lobbies := [{ id := code, members := (leader :: done) ++ [pid],
                       creator := leader }] } : ServerState) pid
      (fun p => { p with name := .str pid }) =
      expectedSt code leader (done ++ [pid]) := by
    rw [updatePeer_append _ _ _ _ _ hids rfl]
    unfold expectedSt
    simp [seqPeer, List.map_append]
  show handlePeerConnection _ pid (mkAnnounce pid) = _
  simp only [handlePeerConnection, hfindp, hfindl1]
  rw [show jGetD (jGetD (mkAnnounce pid) "data") "name" = .str pid from rfl] at *
  simp only [hname, hst4]
  rfl

theorem flatMap_two_len {α : Type} (f : String → List α) (ms : List String)
    (pid : String) (hms : ∀ d ∈ ms, (f d).length = 2) (hp : (f pid).length = 0) :
    ((ms ++ [pid]).flatMap f).length = 2 * ms.length := by
  rw [List.flatMap_append, List.length_append, List.length_flatMap,
    List.length_flatMap]
  have hconst : ms.map (List.length ∘ f) = ms.map (fun _ => 2) :=
    List.map_congr_left (fun d hd => hms d hd)
  rw [hconst, sum_map_two]
  simp [hp]

/-- One full join-then-announce step of the sequential scenario. -/
theorem joinAnnounce_step (cfg : Config) (code leader pid : String)
    (done : List String)
    (hpl : pid ≠ leader) (hpd : pid ∉ done) (hld : leader ∉ done)
    (hpeers : 1 + done.length < cfg.maxPeers)
    (hsize : 1 + done.length < cfg.maxLobbySize)
    (hlen : code.length = LOBBY_ID_LENGTH)
    (hchars : ∀ c ∈ code.toList, LOBBY_ID_CHARS.toList.contains c) :
    joinAnnounce cfg code (expectedSt code leader done) pid false =
      .ok (expectedSt code leader (done ++ [pid]), 2 * (1 + done.length)) := by
  have hconn := onConnection_seq cfg code leader pid done hpl hpd hpeers hsize
    hlen hchars
  have hmsg := handleAnnounce_seq code leader pid done hpl hpd
  have hlen2 : (((leader :: done) ++ [pid]).flatMap (fun destId =>
      if destId != pid then
        match findPeer (expectedSt code leader (done ++ [pid])) destId with
        | some dest =>
          [Output.send pid PEER_CONNECT destId
             (some (.obj [("name", dest.name), ("is_host", .bool dest.isHost),
                          ("preexisting", .bool true)])),
           Output.send dest.id PEER_CONNECT pid
             (some (.obj [("name", .str pid)]))]
        | none => []
      else [])).length = 2 * (1 + done.length) := by
    rw [flatMap_two_len _ (leader :: done) pid ?_ ?_]
    · simp [Nat.add_comm]
    · intro d hd
      have hdp : (d != pid) = true := by
        rcases List.mem_cons.mp hd with h | h
        · subst h; exact bne_iff_ne.mpr (fun h2 => hpl h2.symm)
        · exact bne_iff_ne.mpr (fun h2 => hpd (h2 ▸ h))
      rw [if_pos hdp]
      rcases List.mem_cons.mp hd with h | h
      · subst h
        rw [findPeer_expected_leader]
        rfl
      · have hdl : d ≠ leader := fun h2 => hld (h2 ▸ h)
        rw [findPeer_expected_done (List.mem_append_left _ h) hdl]
        rfl
    · have : (pid != pid) = false := by simp
      rw [this]
      rfl
  simp only [joinAnnounce, Bool.false_eq_true, if_false, hconn, hmsg, hlen2]

/-- The first step of the sequential scenario: from the empty server,
`leader` connects with no code, creates lobby `code`, becomes host, and
its handshake to an otherwise empty lobby emits zero messages. -/
theorem joinAnnounce_first (cfg : Config) (code leader : String)
    (hpeers : 0 < cfg.maxPeers) (hsize : 0 < cfg.maxLobbySize) :
    joinAnnounce cfg code { peers := [], lobbies := [] } leader true =
      .ok (expectedSt code leader [], 0) := by
  have hnocap : ¬((0 : Nat) ≥ cfg.maxPeers) := by omega
  have hfind1 : findPeer (connectPeer { peers := [], lobbies := [] } leader) leader =
      some { id := leader, name := .str "Player", isHost := false, lobbyId := "" } := by
    unfold findPeer connectPeer
    simp [List.find?_cons]
  have hupd1 : updatePeer (createLobby (connectPeer { peers := [], lobbies := [] }
        leader) code leader) leader (fun p => { p with isHost := true }) =
      preLobbySt code leader := by
    unfold updatePeer createLobby connectPeer preLobbySt
    simp
  have hupd2 : updatePeer (preLobbySt code leader) leader
      (fun p => { p with lobbyId := code }) = hostOnlySt code leader := by
    unfold updatePeer preLobbySt hostOnlySt
    simp
  have hfl : findLobby (hostOnlySt code leader) code =
      some { id := code, members := [], creator := leader } := by
    unfold findLobby hostOnlySt
    simp [List.find?_cons]
  have hnofull : ¬((0 : Nat) ≥ cfg.maxLobbySize) := by omega
  have hul : updateLobby (hostOnlySt code leader) code
      (fun l => { l with members := l.members ++ [leader] }) =
      firstJoinedSt code leader := by
    unfold updateLobby hostOnlySt firstJoinedSt
    simp
  have hjoin : joinLobby cfg (connectPeer { peers := [], lobbies := [] } leader)
      leader none code = .ok (firstJoinedSt code leader, [], some code) := by
    simp only [joinLobby, hfind1, hupd1, hupd2, hfl, List.length_nil, hul]
    rw [if_neg hnofull]
  have hset : setPeerId (firstJoinedSt code leader) leader =
      .ok [Output.send leader SET_ID leader
             (some (.obj [("lobby_id", .str code)]))] := by
    unfold setPeerId findPeer firstJoinedSt
    simp [List.find?_cons]
  have hstep1 : onConnection cfg { peers := [], lobbies := [] } leader none code =
      .ok (firstJoinedSt code leader,
           [Output.send leader SET_ID leader
              (some (.obj [("lobby_id", .str code)]))]) := by
    simp only [onConnection, List.length_nil, hjoin, hset]
    rw [if_neg hnocap]
    rfl
  have hfp : findPeer (firstJoinedSt code leader) leader =
      some { id := leader, name := .str "Player", isHost := true, lobbyId := code } := by
    unfold findPeer firstJoinedSt
    simp [List.find?_cons]
  have hfl2 : findLobby (firstJoinedSt code leader) code =
      some { id := code, members := [leader], creator := leader } := by
    unfold findLobby firstJoinedSt
    simp [List.find?_cons]
  have htk : nameTaken (([leader]).filterMap (findPeer (firstJoinedSt code leader)))
      leader (.str leader) = false := by
    simp [nameTaken, hfp]
  have hname : setPlayerName (firstJoinedSt code leader) (.str leader)
      { id := code, members := [leader], creator := leader } leader =
      some (updatePeer (firstJoinedSt code leader) leader
        (fun p => { p with name := .str leader })) := by
    simp only [setPlayerName, resolveNameLoop, htk, Bool.false_eq_true, if_false]
  have hupd3 : updatePeer (firstJoinedSt code leader) leader
      (fun p => { p with name := .str leader }) = expectedSt code leader [] := by
    unfold updatePeer firstJoinedSt expectedSt seqPeer
    simp
  have hmsg : handlePeerMessage (firstJoinedSt code leader) leader
      (some (mkAnnounce leader)) = .ok (expectedSt code leader [], []) := by
    show handlePeerConnection _ leader (mkAnnounce leader) = _
    simp only [handlePeerConnection, hfp, hfl2]
    rw [show jGetD (jGetD (mkAnnounce leader) "data") "name" = .str leader from rfl]
    simp only [hname, hupd3]
    simp
  simp only [joinAnnounce, if_true, hstep1, hmsg]
  rfl

/-- The tail of the sequential scenario, by induction: each of the
`rest` peers joins and announces, the per-handshake message counts being
`2 * (members before the step)`. -/
theorem runSeqAux_spec (cfg : Config) (code leader : String) :
    ∀ (rest done : List String),
      leader ∉ done → leader ∉ rest →
      (∀ x ∈ rest, x ∉ done) → rest.Nodup →
      1 + done.length + rest.length ≤ cfg.maxPeers →
      1 + done.length + rest.length ≤ cfg.maxLobbySize →
      code.length = LOBBY_ID_LENGTH →
      (∀ c ∈ code.toList, LOBBY_ID_CHARS.toList.contains c) →
      runSeqAux cfg code (expectedSt code leader done) rest =
        .ok (expectedSt code leader (done ++ rest),
             (List.range rest.length).map (fun j => 2 * (1 + done.length + j))) := by
  intro rest
  induction rest with
  | nil =>
    intro done _ _ _ _ _ _ _ _
    simp [runSeqAux]
  | cons pid rest' ih =>
    intro done hld hlr hrd hnd hpeers hsize hlen hchars
    simp only [List.length_cons] at hpeers hsize
    have hpl : pid ≠ leader := by
      intro h
      exact hlr (h ▸ List.mem_cons_self pid rest')
    have hpd : pid ∉ done := hrd pid (List.mem_cons_self pid rest')
    have hstep := joinAnnounce_step cfg code leader pid done hpl hpd hld
      (by omega) (by omega) hlen hchars
    have hpr : pid ∉ rest' := (List.nodup_cons.mp hnd).1
    have ih' := ih (done ++ [pid])
      (by
        intro h
        rcases List.mem_append.mp h with h2 | h2
        · exact hld h2
        · exact hpl (List.mem_singleton.mp h2).symm)
      (fun h => hlr (List.mem_cons_of_mem pid h))
      (by
        intro x hx h
        rcases List.mem_append.mp h with h2 | h2
        · exact hrd x (List.mem_cons_of_mem pid hx) h2
        · exact hpr ((List.mem_singleton.mp h2) ▸ hx))
      (List.nodup_cons.mp hnd).2
      (by simp only [List.length_append, List.length_singleton]; omega)
      (by simp only [List.length_append, List.length_singleton]; omega)
      hlen hchars
    have hlist : (done ++ [pid]) ++ rest' = done ++ pid :: rest' := by
      rw [List.append_assoc]
      rfl
    have hcounts : (2 * (1 + done.length)) ::
        (List.range rest'.length).map (fun j => 2 * (1 + (done ++ [pid]).length + j)) =
        (List.range (rest'.length + 1)).map (fun j => 2 * (1 + done.length + j)) := by
      rw [List.range_succ_eq_map, List.map_cons, List.map_map]
      congr 1
      simp
      intro a ha
      omega
    simp only [runSeqAux, hstep, ih', List.length_cons]
    rw [hlist, hcounts]

theorem sum_double_range (n : Nat) :
    ((List.range n).map (fun k => 2 * k)).sum = n * (n - 1) := by
  induction n with
  | zero => rfl
  | succ m ih =>
    rw [List.sum_range_succ, ih]
    cases m with
    | zero => rfl
    | succ k =>
      simp only [Nat.succ_sub_one]
      ring

/-- C7.  If N peers sequentially join one lobby (the first creating it)
and each sends exactly one PEER_CONNECT handshake right after joining,
the k-th handshake (1-based) is answered with exactly 2·(k−1) outbound
introduction messages, and the total across all N handshakes is
N·(N−1). -/
theorem intro_count_spec (cfg : Config) (code : String) (ids : List String)
    (hnd : ids.Nodup)
    (hpeers : ids.length ≤ cfg.maxPeers)
    (hsize : ids.length ≤ cfg.maxLobbySize)
    (hlen : code.length = LOBBY_ID_LENGTH)
    (hchars : ∀ c ∈ code.toList, LOBBY_ID_CHARS.toList.contains c) :
    ∃ st, runSeq cfg code ids =
        .ok (st, (List.range ids.length).map (fun k => 2 * k)) ∧
      ((List.range ids.length).map (fun k => 2 * k)).sum =
        ids.length * (ids.length - 1) := by
  cases ids with
  | nil => exact ⟨{ peers := [], lobbies := [] }, rfl, rfl⟩
  | cons leader rest =>
    have hnodup := List.nodup_cons.mp hnd
    simp only [List.length_cons] at hpeers hsize
    have hfirst := joinAnnounce_first cfg code leader (by omega) (by omega)
    have haux := runSeqAux_spec cfg code leader rest []
      (by simp) hnodup.1 (by simp) hnodup.2
      (by simp; omega) (by simp; omega) hlen hchars
    refine ⟨expectedSt code leader ([] ++ rest), ?_,
      sum_double_range (rest.length + 1)⟩
    have hc : (0 : Nat) ::
        (List.range rest.length).map (fun j => 2 * (1 + ([] : List String).length + j)) =
        (List.range (rest.length + 1)).map (fun k => 2 * k) := by
      rw [List.range_succ_eq_map, List.map_cons, List.map_map]
      congr 1
      simp
      intro a ha
      omega
    simp only [runSeq, hfirst, haux, List.length_cons]
    rw [hc]

theorem intro_count_spec_witness :
    ∃ st, runSeq shippedConfig "AAAAAA" ["a", "b", "c"] =
        .ok (st, [0, 2, 4]) ∧
      ([0, 2, 4] : List Nat).sum = 6 :=
  intro_count_spec shippedConfig "AAAAAA" ["a", "b", "c"]
    (by decide) (by decide) (by decide) (by decide) (by decide)

/-! ## Lemmas for the host-flag invariant -/

theorem ids_ne_of_fresh {s : ServerState} {id : String}
    (h : findPeer s id = none) : ∀ p ∈ s.peers, p.id ≠ id := by
  intro p hp heq
  exact List.find?_eq_none.mp h p hp (by simp [heq])

theorem lobby_ids_ne_of_fresh {s : ServerState} {c : String}
    (h : findLobby s c = none) : ∀ l ∈ s.lobbies, l.id ≠ c := by
  intro l hl heq
  exact List.find?_eq_none.mp h l hl (by simp [heq])

theorem ne_of_found_of_fresh {s : ServerState} {m id : String} {p : Peer}
    (hm : findPeer s m = some p) (hid : findPeer s id = none) : m ≠ id := by
  intro h
  rw [h, hid] at hm
  exact Option.noConfusion hm

theorem findLobby_append_last (P : List Peer) (L : List Lobby) (newL : Lobby)
    (c : String) (hL : ∀ l ∈ L, l.id ≠ c) (hid : newL.id = c) :
    findLobby { peers := P, lobbies := L ++ [newL] } c = some newL := by
  unfold findLobby
  rw [List.find?_append]
  have hnone : L.find? (fun l => l.id == c) = none :=
    List.find?_eq_none.mpr (fun l hl hb => hL l hl (eq_of_beq hb))
  rw [hnone]
  simp [hid]

theorem map_updateLobby_skip (L : List Lobby) (c : String) (g : Lobby → Lobby)
    (h : ∀ l ∈ L, l.id ≠ c) :
    L.map (fun l => if l.id == c then g l else l) = L := by
  have := List.map_congr_left (l := L)
    (f := fun l => if l.id == c then g l else l) (g := id) (fun l hl => by
      have hbeq : (l.id == c) = false := beq_eq_false_iff_ne.mpr (h l hl)
      simp [hbeq])
  rw [this, List.map_id]

theorem validateLobbyId_isSome {st : ServerState} {c : String}
    (h : validateLobbyId st c = true) : ∃ lobby, findLobby st c = some lobby := by
  unfold validateLobbyId at h
  split_ifs at h with h1 h2 h3
  cases hf : findLobby st c with
  | none => rw [hf] at h3; simp at h3
  | some lobby => exact ⟨lobby, rfl⟩

/-- Appending one peer with lobbies untouched preserves the invariant:
every lobby member still resolves to the peer it resolved to before. -/
theorem stateInv_append_peer {s : ServerState} (q : Peer)
    (hinv : StateInv s) :
    StateInv { peers := s.peers ++ [q], lobbies := s.lobbies } := by
  obtain ⟨hwf, hval, hnd, hhost⟩ := hinv
  refine ⟨?_, hval, hnd, ?_⟩
  · intro l hl m hm
    obtain ⟨p, hp, hpl⟩ := hwf l hl m hm
    exact ⟨p, findPeer_append_front hp, hpl⟩
  · intro l hl m hm p hp hhostp
    obtain ⟨p0, hp0, _⟩ := hwf l hl m hm
    have h2 : findPeer { peers := s.peers ++ [q], lobbies := s.lobbies } m = some p0 :=
      findPeer_append_front hp0
    rw [hp] at h2
    injection h2 with h3
    rw [← h3] at hp0
    exact hhost l hl m hm p hp0 hhostp

theorem findPeer_append_unique {s : ServerState} {L2 : List Lobby} {q p p0 : Peer}
    {m : String} (hp0 : findPeer s m = some p0)
    (hp : findPeer { peers := s.peers ++ [q], lobbies := L2 } m = some p) : p = p0 := by
  have h2 : findPeer { peers := s.peers ++ [q], lobbies := L2 } m = some p0 :=
    findPeer_append_front hp0
  rw [hp] at h2
  exact Option.some_injective _ h2

/-- A fresh non-host peer joining an existing lobby preserves the
invariant. -/
theorem stateInv_join_existing {s : ServerState} {id code : String}
    (hinv : StateInv s) (hfresh : findPeer s id = none) :
    StateInv
      { peers := s.peers ++
                   [{ id := id, name := .str "Player", isHost := false,
                      lobbyId := code }],
        lobbies := s.lobbies.map (fun l =>
                     if l.id == code then { l with members := l.members ++ [id] }
                     else l) } := by
  obtain ⟨hwf, hval, hnd, hhost⟩ := hinv
  have hfq : findPeer
      { peers := s.peers ++
                   [{ id := id, name := .str "Player", isHost := false,
                      lobbyId := code }],
        lobbies := s.lobbies.map (fun l =>
                     if l.id == code then { l with members := l.members ++ [id] }
                     else l) } id =
      some { id := id, name := .str "Player", isHost := false, lobbyId := code } :=
    findPeer_append_last _ _ _ _ (ids_ne_of_fresh hfresh) rfl
  refine ⟨?_, ?_, ?_, ?_⟩
  · intro l' hl' m hm
    obtain ⟨l, hl, hleq⟩ := List.mem_map.mp hl'
    by_cases hb : l.id == code
    · rw [if_pos hb] at hleq
      subst hleq
      rcases List.mem_append.mp hm with h | h
      · obtain ⟨p, hp, hpl⟩ := hwf l hl m h
        exact ⟨p, findPeer_append_front hp, hpl⟩
      · rcases List.mem_singleton.mp h with rfl
        exact ⟨_, hfq, (eq_of_beq hb).symm⟩
    · rw [if_neg hb] at hleq
      subst hleq
      obtain ⟨p, hp, hpl⟩ := hwf l hl m hm
      exact ⟨p, findPeer_append_front hp, hpl⟩
  · intro l' hl'
    obtain ⟨l, hl, hleq⟩ := List.mem_map.mp hl'
    by_cases hb : l.id == code
    · rw [if_pos hb] at hleq
      subst hleq
      exact hval l hl
    · rw [if_neg hb] at hleq
      subst hleq
      exact hval l hl
  · show (List.map Lobby.id (s.lobbies.map _)).Nodup
    rw [List.map_map]
    have : (Lobby.id ∘ fun l =>
        if l.id == code then { l with members := l.members ++ [id] } else l) =
        Lobby.id := by
      funext l
      by_cases hb : l.id == code <;> simp [Function.comp, hb]
    rw [this]
    exact hnd
  · intro l' hl' m hm p hp hhostp
    obtain ⟨l, hl, hleq⟩ := List.mem_map.mp hl'
    by_cases hb : l.id == code
    · rw [if_pos hb] at hleq
      subst hleq
      rcases List.mem_append.mp hm with h | h
      · obtain ⟨p0, hp0, _⟩ := hwf l hl m h
        have h3 := findPeer_append_unique hp0 hp
        rw [h3] at hhostp
        exact hhost l hl m h p0 hp0 hhostp
      · rcases List.mem_singleton.mp h with rfl
        rw [hfq] at hp
        injection hp with h3
        rw [← h3] at hhostp
        exact absurd hhostp (by simp)
    · rw [if_neg hb] at hleq
      subst hleq
      obtain ⟨p0, hp0, _⟩ := hwf l hl m hm
      have h3 := findPeer_append_unique hp0 hp
      rw [h3] at hhostp
      exact hhost l hl m hm p0 hp0 hhostp

/-- Creating a lobby appends a fresh host peer and a lobby whose only
member (if any) is that peer and whose ghost creator is that peer; both
variants (capacity-rejected empty membership, and successful join)
preserve the invariant. -/
theorem stateInv_create {s : ServerState} {id newCode : String}
    (ms : List String) (hinv : StateInv s) (hfresh : findPeer s id = none)
    (hcfresh : findLobby s newCode = none) (hne : newCode ≠ "")
    (hms : ms = [] ∨ ms = [id]) :
    StateInv
      { peers := s.peers ++
                   [{ id := id, name := .str "Player", isHost := true,
                      lobbyId := newCode }],
        lobbies := s.lobbies ++
                     [{ id := newCode, members := ms, creator := id }] } := by
  obtain ⟨hwf, hval, hnd, hhost⟩ := hinv
  have hfq : findPeer
      { peers := s.peers ++
                   [{ id := id, name := .str "Player", isHost := true,
                      lobbyId := newCode }],
        lobbies := s.lobbies ++
                     [{ id := newCode, members := ms, creator := id }] } id =
      some { id := id, name := .str "Player", isHost := true, lobbyId := newCode } :=
    findPeer_append_last _ _ _ _ (ids_ne_of_fresh hfresh) rfl
  have hmem : ∀ m ∈ ms, m = id := by
    rcases hms with rfl | rfl
    · intro m hm; cases hm
    · intro m hm; exact List.mem_singleton.mp hm
  refine ⟨?_, ?_, ?_, ?_⟩
  · intro l' hl' m hm
    rcases List.mem_append.mp hl' with h | h
    · obtain ⟨p, hp, hpl⟩ := hwf l' h m hm
      exact ⟨p, findPeer_append_front hp, hpl⟩
    · rcases List.mem_singleton.mp h with rfl
      rcases hmem m hm with rfl
      exact ⟨_, hfq, rfl⟩
  · intro l' hl'
    rcases List.mem_append.mp hl' with h | h
    · exact hval l' h
    · rcases List.mem_singleton.mp h with rfl
      exact hne
  · show (List.map Lobby.id (s.lobbies ++ _)).Nodup
    rw [List.map_append]
    rw [List.nodup_append]
    refine ⟨hnd, List.nodup_singleton _, ?_⟩
    intro x hx
    obtain ⟨l, hl, rfl⟩ := List.mem_map.mp hx
    simp only [List.map_cons, List.map_nil, List.mem_singleton]
    exact fun h => lobby_ids_ne_of_fresh hcfresh l hl h
  · intro l' hl' m hm p hp hhostp
    rcases List.mem_append.mp hl' with h | h
    · obtain ⟨p0, hp0, _⟩ := hwf l' h m hm
      have h3 := findPeer_append_unique hp0 hp
      rw [h3] at hhostp
      exact hhost l' h m hm p0 hp0 hhostp
    · rcases List.mem_singleton.mp h with rfl
      exact hmem m hm

theorem frame_append {s : ServerState} {L2 : List Lobby} {q : Peer} :
    ∀ pid p p', findPeer s pid = some p →
      findPeer { peers := s.peers ++ [q], lobbies := L2 } pid = some p' →
      p'.isHost = p.isHost :=
  fun _ p p' h1 h2 => congrArg Peer.isHost (findPeer_append_unique h1 h2)

/-- The connection event preserves the invariant and never changes the
host flag of a peer that already existed. -/
theorem connect_step_facts (cfg : Config) {s s' : ServerState} {id newCode : String}
    {reqCode : Option String} {outs : List Output}
    (hfresh : findPeer s id = none) (hcfresh : findLobby s newCode = none)
    (hne : newCode ≠ "")
    (hstep : onConnection cfg s id reqCode newCode = .ok (s', outs))
    (hinv : StateInv s) :
    StateInv s' ∧
      (∀ pid p p', findPeer s pid = some p → findPeer s' pid = some p' →
        p'.isHost = p.isHost) := by
  unfold onConnection at hstep
  by_cases hcap : s.peers.length ≥ cfg.maxPeers
  · rw [if_pos hcap] at hstep
    simp only [JsResult.ok.injEq, Prod.mk.injEq] at hstep
    obtain ⟨hs, -⟩ := hstep
    subst hs
    refine ⟨hinv, ?_⟩
    intro pid p p' h1 h2
    rw [h1] at h2
    rw [Option.some_injective _ h2]
  · rw [if_neg hcap] at hstep
    have hfr1 : findPeer (connectPeer s id) id =
        some { id := id, name := .str "Player", isHost := false, lobbyId := "" } :=
      findPeer_connectPeer_fresh hfresh
    cases reqCode with
    | some code =>
      simp only [joinLobby, hfr1] at hstep
      by_cases hv : validateLobbyId (connectPeer s id) code = true
      · simp only [hv, Bool.not_true, Bool.false_eq_true, if_false] at hstep
        have hupd : updatePeer (connectPeer s id) id
            (fun p => { p with lobbyId := code }) =
            { peers := s.peers ++
                [{ id := id, name := .str "Player", isHost := false,
                   lobbyId := code }],
              lobbies := s.lobbies } :=
          updatePeer_append s.peers s.lobbies
            { id := id, name := .str "Player", isHost := false, lobbyId := "" }
            id (fun p => { p with lobbyId := code }) (ids_ne_of_fresh hfresh) rfl
        rw [hupd] at hstep
        obtain ⟨lobby, hlob⟩ := validateLobbyId_isSome hv
        have hlob2 : findLobby
            ({ peers := s.peers ++
                [{ id := id, name := .str "Player", isHost := false,
                   lobbyId := code }],
               lobbies := s.lobbies } : ServerState) code = some lobby := hlob
        simp only [hlob2] at hstep
        by_cases hfull : lobby.members.length ≥ cfg.maxLobbySize
        · rw [if_pos hfull] at hstep
          simp only [JsResult.ok.injEq, Prod.mk.injEq] at hstep
          obtain ⟨hs, -⟩ := hstep
          subst hs
          exact ⟨stateInv_append_peer _ hinv, frame_append⟩
        · rw [if_neg hfull] at hstep
          have hset : setPeerId (updateLobby
              ({ peers := s.peers ++
                  [{ id := id, name := .str "Player", isHost := false,
                     lobbyId := code }],
                 lobbies := s.lobbies } : ServerState) code
              (fun l => { l with members := l.members ++ [id] })) id =
              .ok [Output.send id SET_ID id
                     (some (.obj [("lobby_id", .str code)]))] := by
            unfold setPeerId
            rw [findPeer_updateLobby]
            rw [findPeer_append_last _ _ _ _ (ids_ne_of_fresh hfresh) rfl]
          simp only [hset] at hstep
          simp only [JsResult.ok.injEq, Prod.mk.injEq] at hstep
          obtain ⟨hs, -⟩ := hstep
          subst hs
          exact ⟨stateInv_join_existing hinv hfresh, frame_append⟩
      · have hv2 : validateLobbyId (connectPeer s id) code = false := by
          revert hv
          cases validateLobbyId (connectPeer s id) code <;> simp
        simp only [hv2, Bool.not_false, if_true] at hstep
        simp only [JsResult.ok.injEq, Prod.mk.injEq] at hstep
        obtain ⟨hs, -⟩ := hstep
        subst hs
        exact ⟨stateInv_append_peer _ hinv, frame_append⟩
    | none =>
      simp only [joinLobby, hfr1] at hstep
      have hupd1 : updatePeer (createLobby (connectPeer s id) newCode id) id
          (fun p => { p with isHost := true }) =
          { peers := s.peers ++
              [{ id := id, name := .str "Player", isHost := true, lobbyId := "" }],
            lobbies := s.lobbies ++
              [{ id := newCode, members := [], creator := id }] } := by
        show updatePeer
          { peers := s.peers ++
              [{ id := id, name := .str "Player", isHost := false, lobbyId := "" }],
            lobbies := s.lobbies ++
              [{ id := newCode, members := [], creator := id }] } id
          (fun p => { p with isHost := true }) = _
        exact updatePeer_append _ _ _ _ _ (ids_ne_of_fresh hfresh) rfl
      rw [hupd1] at hstep
      have hupd2 : updatePeer
          ({ peers := s.peers ++
              [{ id := id, name := .str "Player", isHost := true, lobbyId := "" }],
             lobbies := s.lobbies ++
              [{ id := newCode, members := [], creator := id }] } : ServerState) id
          (fun p => { p with lobbyId := newCode }) =
          { peers := s.peers ++
              [{ id := id, name := .str "Player", isHost := true,
                 lobbyId := newCode }],
            lobbies := s.lobbies ++
              [{ id := newCode, members := [], creator := id }] } :=
        updatePeer_append s.peers
          (s.lobbies ++ [{ id := newCode, members := [], creator := id }])
          { id := id, name := .str "Player", isHost := true, lobbyId := "" }
          id (fun p => { p with lobbyId := newCode }) (ids_ne_of_fresh hfresh) rfl
      rw [hupd2] at hstep
      have hflob : findLobby
          ({ peers := s.peers ++
              [{ id := id, name := .str "Player", isHost := true,
                 lobbyId := newCode }],
             lobbies := s.lobbies ++
              [{ id := newCode, members := [], creator := id }] } : ServerState)
          newCode = some { id := newCode, members := [], creator := id } :=
        findLobby_append_last _ _ _ _ (lobby_ids_ne_of_fresh hcfresh) rfl
      simp only [hflob, List.length_nil] at hstep
      by_cases hfull : (0 : Nat) ≥ cfg.maxLobbySize
      · rw [if_pos hfull] at hstep
        simp only [JsResult.ok.injEq, Prod.mk.injEq] at hstep
        obtain ⟨hs, -⟩ := hstep
        subst hs
        exact ⟨stateInv_create [] hinv hfresh hcfresh hne (Or.inl rfl),
          frame_append⟩
      · rw [if_neg hfull] at hstep
        have hul : updateLobby
            ({ peers := s.peers ++
                [{ id := id, name := .str "Player", isHost := true,
                   lobbyId := newCode }],
               lobbies := s.lobbies ++
                [{ id := newCode, members := [], creator := id }] } : ServerState)
            newCode (fun l => { l with members := l.members ++ [id] }) =
            { peers := s.peers ++
                [{ id := id, name := .str "Player", isHost := true,
                   lobbyId := newCode }],
              lobbies := s.lobbies ++
                [{ id := newCode, members := [id], creator := id }] } := by
          unfold updateLobby
          rw [List.map_append,
            map_updateLobby_skip s.lobbies newCode _ (lobby_ids_ne_of_fresh hcfresh)]
          simp
        rw [hul] at hstep
        have hset2 : setPeerId
            ({ peers := s.peers ++
                [{ id := id, name := .str "Player", isHost := true,
                   lobbyId := newCode }],
               lobbies := s.lobbies ++
                [{ id := newCode, members := [id], creator := id }] } : ServerState)
            id =
            .ok [Output.send id SET_ID id
                   (some (.obj [("lobby_id", .str newCode)]))] := by
          unfold setPeerId
          rw [findPeer_append_last _ _ _ _ (ids_ne_of_fresh hfresh) rfl]
        simp only [hset2] at hstep
        simp only [JsResult.ok.injEq, Prod.mk.injEq] at hstep
        obtain ⟨hs, -⟩ := hstep
        subst hs
        exact ⟨stateInv_create [id] hinv hfresh hcfresh hne (Or.inr rfl),
          frame_append⟩

/-- A message event either leaves the state unchanged (relay or
rejection) or only rewrites the sender's display name (handshake). -/
theorem handlePeerMessage_state {s s' : ServerState} {id : String}
    {parsed : Option JValue} {outs : List Output}
    (hstep : handlePeerMessage s id parsed = .ok (s', outs)) :
    s' = s ∨ ∃ nm, s' = updatePeer s id (fun p => { p with name := nm }) := by
  cases parsed with
  | none =>
    simp only [handlePeerMessage] at hstep
    exact JsResult.noConfusion hstep
  | some msg =>
    simp only [handlePeerMessage] at hstep
    split at hstep
    · exact JsResult.noConfusion hstep
    · exact JsResult.noConfusion hstep
    · split at hstep
      · exact JsResult.noConfusion hstep
      · simp only [JsResult.ok.injEq, Prod.mk.injEq] at hstep
        exact Or.inl hstep.1.symm
    · split at hstep
      · simp only [handlePeerConnection] at hstep
        split at hstep
        · exact JsResult.noConfusion hstep
        · split at hstep
          · exact JsResult.noConfusion hstep
          · split at hstep
            · exact JsResult.noConfusion hstep
            next lobby st1 heq =>
              simp only [setPlayerName] at heq
              split at heq
              next nm hloop =>
                injection heq with h1
                simp only [JsResult.ok.injEq, Prod.mk.injEq] at hstep
                exact Or.inr ⟨nm, hstep.1.symm.trans h1.symm⟩
              next hloop => exact Option.noConfusion heq
      · split at hstep
        · split at hstep
          · exact JsResult.noConfusion hstep
          · simp only [JsResult.ok.injEq, Prod.mk.injEq] at hstep
            exact Or.inl hstep.1.symm
        · split at hstep
          · exact JsResult.noConfusion hstep
          · split at hstep
            · simp only [JsResult.ok.injEq, Prod.mk.injEq] at hstep
              exact Or.inl hstep.1.symm
            · simp only [JsResult.ok.injEq, Prod.mk.injEq] at hstep
              exact Or.inl hstep.1.symm

/-- Rewriting one peer's display name preserves the invariant and every
host flag. -/
theorem message_step_facts {s s' : ServerState} {id : String}
    {parsed : Option JValue} {outs : List Output}
    (hstep : handlePeerMessage s id parsed = .ok (s', outs)) (hinv : StateInv s) :
    StateInv s' ∧
      (∀ pid p p', findPeer s pid = some p → findPeer s' pid = some p' →
        p'.isHost = p.isHost) := by
  rcases handlePeerMessage_state hstep with rfl | ⟨nm, rfl⟩
  · refine ⟨hinv, fun pid p p' h1 h2 => ?_⟩
    rw [h1] at h2
    rw [Option.some_injective _ h2]
  · obtain ⟨hwf, hval, hnd, hhost⟩ := hinv
    have hfp : ∀ m, findPeer (updatePeer s id (fun p => { p with name := nm })) m =
        (findPeer s m).map (fun p =>
          if p.id == id then { p with name := nm } else p) :=
      fun m => findPeer_updatePeer s id m _ (fun p => rfl)
    refine ⟨⟨?_, hval, hnd, ?_⟩, ?_⟩
    · intro l hl m hm
      obtain ⟨p, hp, hpl⟩ := hwf l hl m hm
      refine ⟨if p.id == id then { p with name := nm } else p, ?_, ?_⟩
      · rw [hfp m, hp]
        rfl
      · by_cases hb : p.id == id <;> simp [hb, hpl]
    · intro l hl m hm p' hp' hhostp'
      obtain ⟨p, hp, -⟩ := hwf l hl m hm
      have h2 : findPeer (updatePeer s id (fun p => { p with name := nm })) m =
          some (if p.id == id then { p with name := nm } else p) := by
        rw [hfp m, hp]
        rfl
      rw [hp'] at h2
      have h3 := Option.some_injective _ h2
      apply hhost l hl m hm p hp
      rw [h3] at hhostp'
      by_cases hb : p.id == id
      · rw [if_pos hb] at hhostp'
        exact hhostp'
      · rw [if_neg hb] at hhostp'
        exact hhostp'
    · intro pid p p' h1 h2
      rw [hfp pid, h1] at h2
      have h3 := Option.some_injective _ h2
      rw [← h3]
      by_cases hb : p.id == id <;> simp [hb]

/-- Removing a peer that is a member of no lobby preserves the
invariant. -/
theorem stateInv_removePeer {Y : ServerState} {id : String}
    (hW : ∀ l ∈ Y.lobbies, ∀ m ∈ l.members, m ≠ id)
    (hinvY : StateInv Y) : StateInv (removePeer Y id) := by
  obtain ⟨hwf, hval, hnd, hhost⟩ := hinvY
  refine ⟨?_, hval, hnd, ?_⟩
  · intro l hl m hm
    obtain ⟨p, hp, hpl⟩ := hwf l hl m hm
    exact ⟨p, by rw [findPeer_removePeer_ne (hW l hl m hm)]; exact hp, hpl⟩
  · intro l hl m hm p' hp' hhostp'
    rw [findPeer_removePeer_ne (hW l hl m hm)] at hp'
    exact hhost l hl m hm p' hp' hhostp'

theorem frame_removePeer {s Y : ServerState} {id : String} (hpeers : Y.peers = s.peers) :
    ∀ pid p p', findPeer s pid = some p →
      findPeer (removePeer Y id) pid = some p' → p'.isHost = p.isHost := by
  intro pid p p' h1 h2
  by_cases hne : pid = id
  · rw [hne, findPeer_removePeer_self] at h2
    exact Option.noConfusion h2
  · rw [findPeer_removePeer_ne hne] at h2
    have h4 : findPeer Y pid = findPeer s pid := by unfold findPeer; rw [hpeers]
    rw [h4, h1] at h2
    rw [Option.some_injective _ h2]

/-- A lobby member that resolves to the departing peer pins down the
lobby's code. -/
theorem lobby_of_disconnected {s : ServerState} {id : String} {peer : Peer}
    {l : Lobby} (hfp : findPeer s id = some peer) (hwf : WFState s)
    (hl : l ∈ s.lobbies) (hm : id ∈ l.members) : l.id = peer.lobbyId := by
  obtain ⟨p0, hp0, hpl⟩ := hwf l hl id hm
  rw [hfp] at hp0
  rw [← Option.some_injective _ hp0] at hpl
  exact hpl.symm

/-- Deleting a lobby wholesale preserves the invariant. -/
theorem stateInv_removeLobby {s : ServerState} (c : String)
    (hinv : StateInv s) : StateInv (removeLobby s c) := by
  obtain ⟨hwf, hval, hnd, hhost⟩ := hinv
  have hsub : ∀ l, l ∈ (removeLobby s c).lobbies → l ∈ s.lobbies :=
    fun l hl => List.mem_of_mem_filter hl
  refine ⟨?_, ?_, ?_, ?_⟩
  · intro l hl m hm
    exact hwf l (hsub l hl) m hm
  · intro l hl
    exact hval l (hsub l hl)
  · exact List.Nodup.sublist (List.Sublist.map _ (List.filter_sublist _)) hnd
  · intro l hl m hm p hp hhostp
    exact hhost l (hsub l hl) m hm p hp hhostp

/-- Shrinking one lobby's membership to a subset preserves the
invariant. -/
theorem stateInv_shrink_lobby {s : ServerState} {L0 : Lobby} {rem : List String}
    (hinv : StateInv s) (hL0 : L0 ∈ s.lobbies)
    (hrem : ∀ m ∈ rem, m ∈ L0.members) :
    StateInv (updateLobby s L0.id (fun l => { l with members := rem })) := by
  obtain ⟨hwf, hval, hnd, hhost⟩ := hinv
  have hinj := List.inj_on_of_nodup_map hnd
  refine ⟨?_, ?_, ?_, ?_⟩
  · intro l' hl' m hm
    obtain ⟨l, hl, hleq⟩ := List.mem_map.mp hl'
    by_cases hb : l.id == L0.id
    · rw [if_pos hb] at hleq
      subst hleq
      have hlL0 : l = L0 := hinj hl hL0 (eq_of_beq hb)
      subst hlL0
      obtain ⟨p, hp, hpl⟩ := hwf l hL0 m (hrem m hm)
      exact ⟨p, hp, hpl⟩
    · rw [if_neg hb] at hleq
      subst hleq
      exact hwf l hl m hm
  · intro l' hl'
    obtain ⟨l, hl, hleq⟩ := List.mem_map.mp hl'
    by_cases hb : l.id == L0.id
    · rw [if_pos hb] at hleq
      subst hleq
      exact hval l hl
    · rw [if_neg hb] at hleq
      subst hleq
      exact hval l hl
  · show (List.map Lobby.id (s.lobbies.map _)).Nodup
    rw [List.map_map]
    have heq : (Lobby.id ∘ fun l =>
        if l.id == L0.id then { l with members := rem } else l) = Lobby.id := by
      funext l
      by_cases hb : l.id == L0.id <;> simp [Function.comp, hb]
    rw [heq]
    exact hnd
  · intro l' hl' m hm p hp hhostp
    obtain ⟨l, hl, hleq⟩ := List.mem_map.mp hl'
    by_cases hb : l.id == L0.id
    · rw [if_pos hb] at hleq
      subst hleq
      have hlL0 : l = L0 := hinj hl hL0 (eq_of_beq hb)
      subst hlL0
      exact hhost l hL0 m (hrem m hm) p hp hhostp
    · rw [if_neg hb] at hleq
      subst hleq
      exact hhost l hl m hm p hp hhostp

/-- The disconnect event preserves the invariant and every surviving
peer's host flag. -/
theorem disconnect_step_facts {s s' : ServerState} {id : String} {outs : List Output}
    (hstep : disconnectPeer s id = (s', outs)) (hinv : StateInv s) :
    StateInv s' ∧
      (∀ pid p p', findPeer s pid = some p → findPeer s' pid = some p' →
        p'.isHost = p.isHost) := by
  obtain ⟨hwf, hval, hnd, hhost⟩ := hinv
  have ha : (disconnectPeer s id).1 = s' := by rw [hstep]
  cases hfp : findPeer s id with
  | none =>
    simp only [disconnectPeer, hfp] at ha
    subst ha
    refine ⟨⟨hwf, hval, hnd, hhost⟩, ?_⟩
    intro pid p p' h1 h2
    rw [h1] at h2
    rw [Option.some_injective _ h2]
  | some peer =>
    simp only [disconnectPeer, hfp] at ha
    have ha2 : removePeer (leaveLobby s peer) id = s' := by
      cases hl : findLobby (removePeer (leaveLobby s peer) id) peer.lobbyId <;>
        rw [hl] at ha <;> exact ha
    subst ha2
    have hpid : peer.id = id := findPeer_id hfp
    by_cases hbl : peer.lobbyId = ""
    · have hLL : leaveLobby s peer = s := by
        unfold leaveLobby
        rw [hbl]
        simp
      rw [hLL]
      refine ⟨stateInv_removePeer ?_ ⟨hwf, hval, hnd, hhost⟩, frame_removePeer rfl⟩
      intro l hl m hm hmid
      subst hmid
      have hlid := lobby_of_disconnected hfp hwf hl hm
      rw [hbl] at hlid
      exact absurd hlid (hval l hl)
    · have hcond : (peer.lobbyId != "") = true := bne_iff_ne.mpr hbl
      cases hfl : findLobby s peer.lobbyId with
      | none =>
        have hLL : leaveLobby s peer = s := by
          unfold leaveLobby
          simp only [hcond, if_true, hfl]
        rw [hLL]
        refine ⟨stateInv_removePeer ?_ ⟨hwf, hval, hnd, hhost⟩, frame_removePeer rfl⟩
        intro l hl m hm hmid
        subst hmid
        have hlid := lobby_of_disconnected hfp hwf hl hm
        exact List.find?_eq_none.mp hfl l hl (beq_iff_eq.mpr hlid)
      | some L0 =>
        have hL0id : L0.id = peer.lobbyId := findLobby_id hfl
        have hL0mem : L0 ∈ s.lobbies := findLobby_mem hfl
        by_cases hrem : (L0.members.filter (fun m => m != peer.id)).isEmpty = true
        · have hLL : leaveLobby s peer = removeLobby s L0.id := by
            unfold leaveLobby
            simp only [hcond, if_true, hfl, hrem]
          rw [hLL]
          refine ⟨stateInv_removePeer ?_
            (stateInv_removeLobby L0.id ⟨hwf, hval, hnd, hhost⟩),
            frame_removePeer rfl⟩
          intro l hl m hm hmid
          subst hmid
          have hl2 : l ∈ s.lobbies.filter (fun l => l.id != L0.id) := hl
          have hmem2 : l ∈ s.lobbies := List.mem_of_mem_filter hl2
          have hlid := lobby_of_disconnected hfp hwf hmem2 hm
          have hcode := List.of_mem_filter hl2
          simp only [] at hcode
          exact (bne_iff_ne.mp hcode) (hlid.trans hL0id.symm)
        · have hrem2 : (L0.members.filter (fun m => m != peer.id)).isEmpty = false := by
            revert hrem
            cases (L0.members.filter (fun m => m != peer.id)).isEmpty <;> simp
          have hLL : leaveLobby s peer = updateLobby s L0.id
              (fun l => { l with
                members := L0.members.filter (fun m => m != peer.id) }) := by
            unfold leaveLobby
            simp only [hcond, if_true, hfl, hrem2, Bool.false_eq_true, if_false]
          rw [hLL]
          have hsub : ∀ m ∈ L0.members.filter (fun m => m != peer.id), m ∈ L0.members :=
            fun m hm => List.mem_of_mem_filter hm
          have hshrink := stateInv_shrink_lobby ⟨hwf, hval, hnd, hhost⟩ hL0mem hsub
          refine ⟨stateInv_removePeer ?_ hshrink, frame_removePeer rfl⟩
          intro l' hl' m hm hmid
          subst hmid
          obtain ⟨l, hl, hleq⟩ := List.mem_map.mp hl'
          by_cases hb : l.id == L0.id
          · rw [if_pos hb] at hleq
            subst hleq
            have hmf := List.of_mem_filter hm
            exact (bne_iff_ne.mp hmf) hpid.symm
          · rw [if_neg hb] at hleq
            subst hleq
            have hlid := lobby_of_disconnected hfp hwf hl hm
            exact hb (beq_iff_eq.mpr (hlid.trans hL0id.symm))

/-- Every reachable state satisfies the inductive invariant bundle. -/
theorem reachable_stateInv {cfg : Config} {s : ServerState}
    (h : Reachable cfg s) : StateInv s := by
  induction h with
  | init =>
    refine ⟨?_, ?_, ?_, ?_⟩
    · intro l hl
      exact absurd hl (List.not_mem_nil _)
    · intro l hl
      exact absurd hl (List.not_mem_nil _)
    · exact List.nodup_nil
    · intro l hl
      exact absurd hl (List.not_mem_nil _)
  | @connect s s' id newCode reqCode outs hr hf hcf hlen hchars hstep ih =>
    have hne : newCode ≠ "" := by
      intro hc
      rw [hc] at hlen
      simp [LOBBY_ID_LENGTH] at hlen
    exact (connect_step_facts cfg hf hcf hne hstep ih).1
  | message hr hstep ih =>
    exact (message_step_facts hstep ih).1
  | close hr hstep ih =>
    exact (disconnect_step_facts hstep ih).1

/-- C9: in every reachable state, any lobby member holding the host flag
is exactly the peer whose connection created that lobby (so at most one
member per lobby is a host), and no event — a further connection, an
inbound message, or a disconnection (the host's own included) — ever
changes the host flag of a peer that survives the event. -/
theorem host_flag_invariant :
    (∀ (cfg : Config) (s : ServerState), Reachable cfg s →
      ∀ l ∈ s.lobbies, ∀ m ∈ l.members, ∀ p, findPeer s m = some p →
        p.isHost = true → m = l.creator) ∧
    (∀ (cfg : Config) (s : ServerState), Reachable cfg s →
      ∀ l ∈ s.lobbies, ∀ m1 ∈ l.members, ∀ m2 ∈ l.members,
      ∀ p1 p2, findPeer s m1 = some p1 → findPeer s m2 = some p2 →
        p1.isHost = true → p2.isHost = true → m1 = m2) ∧
    (∀ (cfg : Config) (s s' : ServerState) (id newCode : String)
        (reqCode : Option String) (outs : List Output),
      Reachable cfg s → findPeer s id = none → findLobby s newCode = none →
      newCode.length = LOBBY_ID_LENGTH →
      (∀ c ∈ newCode.toList, LOBBY_ID_CHARS.toList.contains c) →
      onConnection cfg s id reqCode newCode = .ok (s', outs) →
      ∀ pid p p', findPeer s pid = some p → findPeer s' pid = some p' →
        p'.isHost = p.isHost) ∧
    (∀ (cfg : Config) (s s' : ServerState) (id : String) (parsed : Option JValue)
        (outs : List Output),
      Reachable cfg s → handlePeerMessage s id parsed = .ok (s', outs) →
      ∀ pid p p', findPeer s pid = some p → findPeer s' pid = some p' →
        p'.isHost = p.isHost) ∧
    (∀ (cfg : Config) (s s' : ServerState) (id : String) (outs : List Output),
      Reachable cfg s → disconnectPeer s id = (s', outs) →
      ∀ pid p p', findPeer s pid = some p → findPeer s' pid = some p' →
        p'.isHost = p.isHost) := by
  refine ⟨?_, ?_, ?_, ?_, ?_⟩
  · intro cfg s hr
    exact (reachable_stateInv hr).2.2.2
  · intro cfg s hr l hl m1 h1 m2 h2 p1 p2 hp1 hp2 hh1 hh2
    have hhost := (reachable_stateInv hr).2.2.2
    rw [hhost l hl m1 h1 p1 hp1 hh1, hhost l hl m2 h2 p2 hp2 hh2]
  · intro cfg s s' id newCode reqCode outs hr hf hcf hlen hchars hstep
    have hne : newCode ≠ "" := by
      intro hc
      rw [hc] at hlen
      simp [LOBBY_ID_LENGTH] at hlen
    exact (connect_step_facts cfg hf hcf hne hstep (reachable_stateInv hr)).2
  · intro cfg s s' id parsed outs hr hstep
    exact (message_step_facts hstep (reachable_stateInv hr)).2
  · intro cfg s s' id outs hr hstep
    exact (disconnect_step_facts hstep (reachable_stateInv hr)).2

/-- Instantiation of the host invariant on the concrete reachable state
after a single lobby-creating connection, plus the disconnect frame on
that state. -/
theorem host_flag_invariant_witness :
    (∀ l ∈ firstConnSt.lobbies, ∀ m ∈ l.members, ∀ p,
        findPeer firstConnSt m = some p → p.isHost = true → m = l.creator) ∧
    (∀ pid p p', findPeer firstConnSt pid = some p →
        findPeer firstConnSt pid = some p' → p'.isHost = p.isHost) := by
  have hconn : onConnection shippedConfig { peers := [], lobbies := [] } "a" none "AAAAAA" =
      .ok (firstConnSt,
        [Output.send "a" SET_ID "a" (some (.obj [("lobby_id", .str "AAAAAA")]))]) := rfl
  have hreach : Reachable shippedConfig firstConnSt :=
    Reachable.connect Reachable.init rfl rfl (by decide) (by decide) hconn
  refine ⟨host_flag_invariant.1 shippedConfig firstConnSt hreach, ?_⟩
  exact host_flag_invariant.2.2.2.2 shippedConfig firstConnSt firstConnSt "z" []
    hreach rfl

end Signaling
